import Mathlib

/-!
Shallow embedding of the per-connection HTTP/1.1 engine of `sanic/http.py`
and the connection driver of `sanic/server.py`, together with proofs about
the framing, parsing and timeout behaviour.

Byte strings are modelled as `List Nat` (one `Nat` per byte); all inputs of
interest are ASCII.  Machine arithmetic does not overflow in Python, so
plain integers are used.
-/

namespace Sanic

abbrev Bytes := List Nat

/-- ASCII bytes of a string literal (all uses are ASCII, where UTF-8 bytes
coincide with code points). -/
def sbytes (s : String) : Bytes := s.data.map Char.toNat

def CR : Nat := 13
def LF : Nat := 10

def crlf : Bytes := [CR, LF]

def crlfcrlf : Bytes := [CR, LF, CR, LF]

/-- `bytes.lower()` on a single ASCII byte. -/
def byteLower (b : Nat) : Nat := if 65 ≤ b ∧ b ≤ 90 then b + 32 else b

/-- `bytes.upper()` on a single ASCII byte. -/
def byteUpper (b : Nat) : Nat := if 97 ≤ b ∧ b ≤ 122 then b - 32 else b

def asciiLower (b : Bytes) : Bytes := b.map byteLower

def asciiUpper (b : Bytes) : Bytes := b.map byteUpper

/-- Python `str` whitespace bytes (`\t \n \v \f \r` and space). -/
def isPySpace (b : Nat) : Bool := b = 32 ∨ b = 9 ∨ b = 10 ∨ b = 11 ∨ b = 12 ∨ b = 13

/-- `str.lstrip()`. -/
def lstrip (b : Bytes) : Bytes := b.dropWhile isPySpace

/-- `bytes.decode()` restricted to ASCII input: succeeds exactly when every
byte is below 128 (all inputs exercised here are ASCII; multi-byte UTF-8
sequences are not modelled). -/
def decodeAscii (b : Bytes) : Option Bytes :=
  if b.all (fun x => x < 128) then some b else none

/-- Linear scan for `bfind`, fuelled by the number of candidate indices. -/
def bfindGo (buf pat : Bytes) : Nat → Nat → Option Nat
  | _, 0 => none
  | start, fuel + 1 =>
    if pat.isPrefixOf (buf.drop start) then some start
    else bfindGo buf pat (start + 1) fuel

/-- `buf.find(pat, start)`: least index `i ≥ start` at which `pat` occurs in
`buf`, as `Option` (`none` for Python's `-1`). -/
def bfind (buf pat : Bytes) (start : Nat) : Option Nat :=
  bfindGo buf pat start (buf.length + 1 - start)

/-- Whether `pat` occurs in `buf` at some index `≥ start`. -/
def occursFrom (buf pat : Bytes) (start : Nat) : Prop :=
  ∃ i, start ≤ i ∧ pat.isPrefixOf (buf.drop i)

instance (buf pat : Bytes) (start : Nat) : Decidable (occursFrom buf pat start) := by
  unfold occursFrom
  exact decidable_of_iff
    (∃ i ≤ buf.length + start, start ≤ i ∧ pat.isPrefixOf (buf.drop i)) (by
    constructor
    · rintro ⟨i, _, h1, h2⟩; exact ⟨i, h1, h2⟩
    · rintro ⟨i, h1, h2⟩
      by_cases hi : i ≤ buf.length + start
      · exact ⟨i, hi, h1, h2⟩
      · have hlen : buf.length ≤ i :=
          le_trans (Nat.le_add_right _ _) (le_of_lt (lt_of_not_le hi))
        refine ⟨max start buf.length, ?_, le_max_left _ _, ?_⟩
        · exact max_le (Nat.le_add_left _ _) (Nat.le_add_right _ _)
        · rw [List.drop_eq_nil_of_le (le_max_right start buf.length)]
          rwa [List.drop_eq_nil_of_le hlen] at h2)

/-- Split a byte string on `\r\n` occurrences, mirroring Python
`str.split("\r\n")` (keeps empty pieces, non-overlapping left-to-right). -/
def splitCRLF : Bytes → List Bytes
  | [] => [[]]
  | [a] => [[a]]
  | a :: b :: rest =>
    if a = CR ∧ b = LF then [] :: splitCRLF rest
    else
      match splitCRLF (b :: rest) with
      | [] => [[a]]
      | c :: cs => (a :: c) :: cs

/-- Split on a single byte, mirroring Python `str.split(sep)` for a
one-character separator (keeps empty pieces). -/
def splitByte (sep : Nat) : Bytes → List Bytes
  | [] => [[]]
  | a :: rest =>
    if a = sep then [] :: splitByte sep rest
    else
      match splitByte sep rest with
      | [] => [[a]]
      | c :: cs => (a :: c) :: cs

def isHexDigit (b : Nat) : Bool :=
  (48 ≤ b ∧ b ≤ 57) ∨ (97 ≤ b ∧ b ≤ 102) ∨ (65 ≤ b ∧ b ≤ 70)

def hexVal (b : Nat) : Nat :=
  if 48 ≤ b ∧ b ≤ 57 then b - 48
  else if 97 ≤ b ∧ b ≤ 102 then b - 87
  else b - 55

def isDecDigit (b : Nat) : Bool := 48 ≤ b ∧ b ≤ 57

/-- Value of a plain string of hex digits. -/
def hexNat (b : Bytes) : Nat := b.foldl (fun acc d => acc * 16 + hexVal d) 0

/-- Value of a plain string of decimal digits. -/
def decNat (b : Bytes) : Nat := b.foldl (fun acc d => acc * 10 + (d - 48)) 0

/-- Python `int()` whitespace stripping (both ends). -/
def pyStrip (b : Bytes) : Bytes :=
  ((b.dropWhile isPySpace).reverse.dropWhile isPySpace).reverse

/-- Python `int()` sign handling: optional leading `-`/`+`. -/
def pySign (b : Bytes) : Int × Bytes :=
  match b with
  | x :: rest =>
    if x = 45 then (-1, rest)
    else if x = 43 then (1, rest)
    else (1, x :: rest)
  | [] => (1, [])

/-- Python `int(s, 16)` optional `0x`/`0X` prefix removal. -/
def pyHexBody (b : Bytes) : Bytes :=
  match b with
  | x :: y :: rest => if x = 48 ∧ (y = 120 ∨ y = 88) then rest else x :: y :: rest
  | _ => b

/-- Python `int(s, 16)` restricted to the forms exercised here: optional
surrounding whitespace, optional sign, optional `0x`/`0X` prefix, then at
least one hex digit (digit-grouping underscores are not modelled). -/
def pythonIntHex (b : Bytes) : Option Int :=
  let s := pySign (pyStrip b)
  let d := pyHexBody s.2
  if d ≠ [] ∧ d.all isHexDigit then some (s.1 * hexNat d) else none

/-- Python `int(s)` (decimal) restricted likewise. -/
def pythonIntDec (b : Bytes) : Option Int :=
  let s := pySign (pyStrip b)
  if s.2 ≠ [] ∧ s.2.all isDecDigit then some (s.1 * decNat s.2) else none

/-- Python slice `buf[:n]` for an `int` bound `n` (negative bounds count from
the end, clamped at zero). -/
def pySliceTo (buf : Bytes) (n : Int) : Bytes :=
  if 0 ≤ n then buf.take n.toNat else buf.take (buf.length - n.natAbs)

/-- Decimal ASCII rendering of a natural number, as stored for the
`content-length` response header. -/
def natToDec (n : Nat) : Bytes := sbytes (toString n)

/-! ## Data model: stages, errors, header containers -/

/-- `Stage` enumeration from `sanic/http.py`. -/
inductive Stage
  | idle | request | handler | response | failed
deriving DecidableEq, Repr

/-- The exceptions raised by the modelled code paths. -/
inductive HErr
  | payloadTooLarge (msg : String)
  | invalidUsage (msg : String)
  | headerExpectationFailed (expect : Bytes)
  | serverError (msg : String)
  | runtimeError (msg : String)
  | requestTimeout (msg : String)
  | serviceUnavailable (msg : String)
  | uncaught
deriving DecidableEq, Repr

/-- The framing strategy held in the mutable `response_func` slot. -/
inductive FramerTag
  | start | normal | chunked | headIgnored | noFunc
deriving DecidableEq, Repr

/-- Header multidicts are modelled as ordered association lists of
(name, value) byte strings; names appear already lower-cased (the Python
container is case-insensitive). -/
abbrev HeadersL := List (Bytes × Bytes)

/-- `headers.get(k)` / `headers[k]`: first entry with the given name. -/
def hfind (hs : HeadersL) (k : Bytes) : Option Bytes :=
  (hs.find? (fun p => p.1 == k)).map (fun p => p.2)

/-- `k in headers`. -/
def hcontains (hs : HeadersL) (k : Bytes) : Bool := (hfind hs k).isSome

/-- `headers[k] = v`: replace any existing entries for the name. -/
def hset (hs : HeadersL) (k v : Bytes) : HeadersL :=
  hs.filter (fun p => !(p.1 == k)) ++ [(k, v)]

/-- `headers.pop(k, None)`. -/
def hpop (hs : HeadersL) (k : Bytes) : HeadersL :=
  hs.filter (fun p => !(p.1 == k))

/-! ## Response objects and response-side engine state -/

/-- The slice of `HTTPResponse` consumed by the engine: status, body,
content type and a header multidict.  Header values are byte strings (an
integer value such as `content-length` is its decimal rendering). -/
structure Response where
  status : Int
  body : Bytes
  content_type : Option Bytes
  headers : HeadersL
deriving DecidableEq, Repr

/-- Response-side engine state: the `Http` slots touched by `respond`,
`send` and the response framers. -/
structure HttpState where
  stage : Stage
  keep_alive : Bool
  head_only : Bool
  expecting_continue : Bool
  response : Option Response
  func : FramerTag
  response_bytes_left : Int
deriving DecidableEq, Repr

/-- Outcome of one framer call: either an exception (with the state as
mutated before the raise) or the new state with the bytes handed to the
transport (`none` models Python's falsy `None`/empty return suppressing the
write in `send`). -/
inductive FramerRes
  | err (st : HttpState) (e : HErr)
  | ok (st : HttpState) (out : Option Bytes)
deriving DecidableEq, Repr

/-! ## Fixed-length response framing (`Http.http1_response_normal`) -/

/-- `Http.http1_response_normal`: track a fixed `content-length` body. -/
def http1_response_normal (st : HttpState) (data : Bytes) (end_stream : Bool) :
    FramerRes :=
  let left := st.response_bytes_left - data.length
  let st := { st with response_bytes_left := left }
  if left ≤ 0 then
    if left < 0 then
      .err st (.serverError "Response was bigger than content-length")
    else
      .ok { st with func := .noFunc, stage := .idle } (some data)
  else if end_stream then
    .err st (.serverError "Response was smaller than content-length")
  else
    .ok st (some data)

/-- Run a sequence of `send` calls through the `normal` framer, summing the
bytes put on the wire. -/
def runNormal (st : HttpState) : List (Bytes × Bool) → Option (HttpState × Nat)
  | [] => some (st, 0)
  | (d, e) :: rest =>
    match http1_response_normal st d e with
    | .err _ _ => none
    | .ok st' out =>
      match runNormal st' rest with
      | none => none
      | some (stf, n) => some (stf, (out.getD []).length + n)

/-! ## Response start framing (`Http.http1_response_start`) -/

/-- Modelled from the spec: `sanic.helpers.has_message_body` is not under
`src/`; per the spec's framing table, the header-only statuses are 1xx
except 101, plus 204 and 304. -/
def has_message_body (status : Int) : Bool :=
  ¬(status = 204 ∨ status = 304 ∨ (100 ≤ status ∧ status < 200 ∧ status ≠ 101))

/-- Modelled from the spec: `sanic.helpers.remove_entity_headers` is not
under `src/`; the spec only says 304/412 responses have "entity headers
stripped", so the standard RFC 2616 entity-header names are removed, with
`content-location` and `expires` retained. -/
def remove_entity_headers (hs : HeadersL) : HeadersL :=
  hs.filter (fun p =>
    !( p.1 == sbytes "allow" || p.1 == sbytes "content-encoding"
    || p.1 == sbytes "content-language" || p.1 == sbytes "content-length"
    || p.1 == sbytes "content-md5" || p.1 == sbytes "content-range"
    || p.1 == sbytes "content-type" || p.1 == sbytes "last-modified"))

/-- `b"HTTP/1.1 100 Continue\r\n\r\n"`. -/
def HTTP_CONTINUE : Bytes := sbytes "HTTP/1.1 100 Continue" ++ crlf ++ crlf

/-- Status line and header block of a response (the bytes up to and
including the blank line). Modelled from the spec: `format_http1_response`
lives in `sanic.headers`, not under `src/`; the spec gives the layout
`HTTP/1.1 <status> <reason>\x5cr\x5cn` headers `\x5cr\x5cn\x5cr\x5cn`
(the reason phrase table is external and elided here). -/
def headerBlock (status : Int) (hs : HeadersL) : Bytes :=
  sbytes "HTTP/1.1 " ++ sbytes (toString status) ++ crlf
    ++ hs.foldr (fun p acc => p.1 ++ sbytes ": " ++ p.2 ++ crlf ++ acc) []
    ++ crlf

/-- Modelled from the spec: full response serialization: header block
followed by the body bytes (a `None` body contributes nothing). -/
def format_http1_response (status : Int) (hs : HeadersL) (body : Option Bytes) :
    Bytes :=
  headerBlock status hs ++ body.getD []

/-- `b"%x" % n`: lowercase hex rendering. -/
def natToHex (n : Nat) : Bytes := (Nat.toDigits 16 n).map Char.toNat

/-- Everything `Http.http1_response_start` computes: the new engine state,
the final status/header/body triple handed to `format_http1_response`, and
whether a 100-continue preamble was prepended. -/
structure StartOut where
  st : HttpState
  status : Int
  headersOut : HeadersL
  dataOut : Option Bytes
  sent100 : Bool
deriving DecidableEq, Repr

inductive StartRes
  | err (st : HttpState) (e : HErr)
  | ok (o : StartOut)
deriving DecidableEq, Repr

/-- Wire bytes produced by one `http1_response_start` call. -/
def startBytes (o : StartOut) : Bytes :=
  (if o.sent100 then HTTP_CONTINUE else [])
    ++ format_http1_response o.status o.headersOut o.dataOut

/-- Outcome of the framing-selection branch chain of
`http1_response_start` (lines 182-213): the possibly rewritten body and
`end_stream`, the adjusted headers, the next `response_func` and
`response_bytes_left`. -/
structure BranchOut where
  data : Option Bytes
  es : Bool
  headers : HeadersL
  func : FramerTag
  left : Int
deriving DecidableEq, Repr

/-- The framing-selection branch chain of `http1_response_start`. -/
def startBranch (st : HttpState) (headers : HeadersL) (status : Int)
    (data : Bytes) (end_stream : Bool) : Except HErr BranchOut :=
  let size := data.length
  if ¬has_message_body status then
    -- Header-only response status
    if data ≠ [] ∨ ¬end_stream ∨ hcontains headers (sbytes "content-length")
        ∨ hcontains headers (sbytes "transfer-encoding") then
      .ok ⟨some [], true,
        hpop (hpop headers (sbytes "content-length")) (sbytes "transfer-encoding"),
        .noFunc, st.response_bytes_left⟩
    else
      .ok ⟨some data, end_stream, headers, .noFunc, st.response_bytes_left⟩
  else if st.head_only ∧ hcontains headers (sbytes "content-length") then
    .ok ⟨some data, end_stream, headers, .noFunc, st.response_bytes_left⟩
  else if end_stream then
    -- Non-streaming response (all in one block)
    .ok ⟨some data, end_stream,
      hset headers (sbytes "content-length") (natToDec size),
      .noFunc, st.response_bytes_left⟩
  else if hcontains headers (sbytes "content-length") then
    -- Streaming response with size known in advance
    match pythonIntDec ((hfind headers (sbytes "content-length")).getD []) with
    | none => .error .uncaught
    | some n => .ok ⟨some data, end_stream, headers, .normal, n - size⟩
  else
    -- Length not known, use chunked encoding
    .ok ⟨(if size ≠ 0 then some (natToHex size ++ crlf ++ data ++ crlf) else none),
      end_stream, hset headers (sbytes "transfer-encoding") (sbytes "chunked"),
      .chunked, st.response_bytes_left⟩

/-- The body-substitution step of `http1_response_start` (line 172):
an empty `data` argument with a nonempty `response.body` is replaced by the
body. -/
def startData (res : Response) (data : Bytes) : Bytes :=
  if data = [] ∧ res.body ≠ [] then res.body else data

/-- The `end_stream` forced by the body substitution. -/
def startEs (res : Response) (data : Bytes) (end_stream : Bool) : Bool :=
  if data = [] ∧ res.body ≠ [] then true else end_stream

/-- Header preparation of `http1_response_start` (lines 177-181): fill in
`content-type` when absent, strip entity headers for 304/412. -/
def startHeaders (res : Response) : HeadersL :=
  let headers := res.headers
  let headers :=
    if res.content_type.getD [] ≠ [] ∧ ¬hcontains headers (sbytes "content-type")
    then hset headers (sbytes "content-type") (res.content_type.getD [])
    else headers
  if res.status = 304 ∨ res.status = 412 then remove_entity_headers headers
  else headers

/-- `Http.http1_response_start`: select the framing strategy on the first
`send` of a response. -/
def http1_response_start (st : HttpState) (res : Response) (data : Bytes)
    (end_stream : Bool) : StartRes :=
  match startBranch st (startHeaders res) res.status (startData res data)
      (startEs res data end_stream) with
  | .error e => .err st e
  | .ok b =>
    -- Head request: don't send body
    let dataF := if st.head_only then some [] else b.data
    let funcF := if st.head_only then FramerTag.headIgnored else b.func
    let headersF :=
      hset b.headers (sbytes "connection")
        (if st.keep_alive then sbytes "keep-alive" else sbytes "close")
    -- Send a 100-continue if expected and not Expectation Failed
    let sent100 := st.expecting_continue ∧ res.status ≠ 417
    let st' := { st with
      expecting_continue := false
      func := funcF
      response_bytes_left := b.left
      stage := if b.es then Stage.idle else Stage.response }
    .ok ⟨st', res.status, headersF, dataF, sent100⟩

/-- `Http.head_response_ignored`: HEAD response body data silently ignored
(the Python function returns `None`, so `send` transmits nothing). -/
def head_response_ignored (st : HttpState) (_data : Bytes) (end_stream : Bool) :
    FramerRes :=
  if end_stream then .ok { st with func := .noFunc, stage := .idle } none
  else .ok st none

/-- `Http.http1_response_chunked`: format one part of a chunked response. -/
def http1_response_chunked (st : HttpState) (data : Bytes) (end_stream : Bool) :
    FramerRes :=
  let size := data.length
  if end_stream then
    .ok { st with func := .noFunc, stage := .idle }
      (some (if size ≠ 0 then
        natToHex size ++ crlf ++ data ++ crlf ++ sbytes "0" ++ crlf ++ crlf
      else sbytes "0" ++ crlf ++ crlf))
  else
    .ok st (if size ≠ 0 then some (natToHex size ++ crlf ++ data ++ crlf) else none)

/-! ## `Http.respond`, `Http.send` and `Http.error_response` -/

inductive RespondRes
  | err (st : HttpState) (e : HErr)
  | ok (st : HttpState)
deriving DecidableEq, Repr

/-- `Http.respond`: register (or replace) the response object; valid only in
the `HANDLER` stage. -/
def respond (st : HttpState) (res : Response) : RespondRes :=
  if st.stage ≠ .handler then
    .err { st with stage := .failed } (.runtimeError "Response already started")
  else if res.status < 200 then
    .err st (.runtimeError "Invalid response status")
  else
    .ok { st with response := some res }

/-- `Http.send`: apply the default-argument rule (`data=None, end_stream=None`
means `end_stream=True`), coerce `data` to bytes, and dispatch to the
current `response_func`.  A `None`-ish framer return suppresses the write. -/
def send (st : HttpState) (data : Option Bytes) (end_stream : Option Bool) :
    FramerRes :=
  let end_stream :=
    if data = none ∧ end_stream = none then some true else end_stream
  let d := data.getD []
  let e := end_stream.getD false
  match st.func with
  | .start =>
    match st.response with
    | none => .err st .uncaught
    | some res =>
      match http1_response_start st res d e with
      | .err st' e => .err st' e
      | .ok o => .ok o.st (some (startBytes o))
  | .normal => http1_response_normal st d e
  | .chunked => http1_response_chunked st d e
  | .headIgnored => head_response_ignored st d e
  | .noFunc => .err st .uncaught

inductive ErrorRespRes
  | silent (st : HttpState)
  | responded (st : HttpState) (o : StartOut)
  | raised (st : HttpState) (e : HErr)
deriving DecidableEq, Repr

/-- `Http.error_response`: route an exception to a response when possible.
In the `HANDLER` stage the external `app.handle_exception` yields `errRes`,
which is then sent via `respond(...).send(end_stream=True)`; at that point
`response_func` is still the `start` framer. -/
def error_response (st : HttpState) (errRes : Response) : ErrorRespRes :=
  -- Disconnect after an error if in any other state than handler
  let st := if st.stage ≠ .handler then { st with keep_alive := false } else st
  -- Request failure? Respond but then disconnect
  let st := if st.stage = .request then { st with stage := .handler } else st
  -- From request and handler states we can respond, otherwise be silent
  if st.stage = .handler then
    match respond st errRes with
    | .err st' e => .raised st' e
    | .ok st' =>
      match http1_response_start st' errRes [] true with
      | .err st'' e => .raised st'' e
      | .ok o => .responded o.st o
  else .silent st

/-! ## Request header reception (`Http.http1_request_header`) -/

/-- Request-side engine state: the `Http` slots touched by header parsing
and `read`, plus the receive buffer and `HttpProtocol._total_request_size`.
The latter attribute is never initialized anywhere under `src/`, so it is
carried here as an explicit component with an arbitrary starting value. -/
structure ReqState where
  keep_alive : Bool
  expecting_continue : Bool
  head_only : Bool
  request_chunked : Bool
  request_bytes_left : Int
  total : Int
  buf : Bytes
  stage : Stage
deriving DecidableEq, Repr

inductive HeaderRecvRes
  | found (pos : Nat) (buf : Bytes) (fills : List Bytes)
  | tooLarge
  | starved
deriving DecidableEq, Repr

/-- The receive loop of `http1_request_header` (lines 101-113): while the
buffer is below `request_max_size`, scan for `\x5cr\x5cn\x5cr\x5cn` from
`pos`, resuming from `len(buf) - 3` after a failed scan, and await the next
fill; once the buffer reaches the limit raise `PayloadTooLarge`.  `fills`
lists the successive `receive_more` payloads; running out of them models
blocking forever on the socket (`starved`). -/
def headerRecvLoop (maxSize : Nat) : Bytes → Nat → List Bytes → HeaderRecvRes
  | buf, pos, [] =>
    if buf.length < maxSize then
      if buf ≠ [] then
        match bfind buf crlfcrlf pos with
        | some p => .found p buf []
        | none => .starved
      else .starved
    else .tooLarge
  | buf, pos, f :: rest =>
    if buf.length < maxSize then
      if buf ≠ [] then
        match bfind buf crlfcrlf pos with
        | some p => .found p buf (f :: rest)
        | none => headerRecvLoop maxSize (buf ++ f) (buf.length - 3) rest
      else headerRecvLoop maxSize (buf ++ f) pos rest
    else .tooLarge

/-- One raw header line: split on the first `:` (unpack failure for a line
with no colon), lower-case the name, left-strip the value. -/
def parseHeaderLine (line : Bytes) : Option (Bytes × Bytes) :=
  match line.dropWhile (fun b => b ≠ 58) with
  | [] => none
  | _ :: v => some (asciiLower (line.takeWhile (fun b => b ≠ 58)), lstrip v)

/-- The header loop of `http1_request_header` (lines 126-133): collect
(name, value) pairs in order, set the body flag on `content-length` or
`transfer-encoding`, and let a `connection` header override keep-alive. -/
def processHeaders (lines : List Bytes) (ka0 : Bool) :
    Option (HeadersL × Bool × Bool) :=
  lines.foldlM (fun acc l => do
    let (n, v) ← parseHeaderLine l
    let (hs, body, ka) := acc
    if n = sbytes "content-length" ∨ n = sbytes "transfer-encoding" then
      return (hs ++ [(n, v)], true, ka)
    else if n = sbytes "connection" then
      return (hs ++ [(n, v)], body, asciiLower v = sbytes "keep-alive")
    else
      return (hs ++ [(n, v)], body, ka)) ([], false, ka0)

/-- The body-preparation block of `http1_request_header` (lines 150-163),
entered only when the body flag is set: validate any `expect` header, then
select chunked framing (retaining one CRLF) or a `content-length` count.
Returns (expecting_continue, chunked, bytes_left, retainCRLF). -/
def bodyPrep (hs : HeadersL) (body : Bool) (ec0 : Bool) :
    Except HErr (Bool × Bool × Int × Bool) :=
  if body then do
    let ec ←
      match hfind hs (sbytes "expect") with
      | none => Except.ok ec0
      | some v =>
        if asciiLower v = sbytes "100-continue" then Except.ok true
        else Except.error (.headerExpectationFailed v)
    if hfind hs (sbytes "transfer-encoding") = some (sbytes "chunked") then
      Except.ok (ec, true, 0, true)
    else
      match hfind hs (sbytes "content-length") with
      | none => Except.error .uncaught
      | some v =>
        match pythonIntDec v with
        | none => Except.error .uncaught
        | some n => Except.ok (ec, false, n, false)
  else Except.ok (ec0, false, 0, false)

structure ParsedRequest where
  method : Bytes
  url : Bytes
  version : Bytes
  headers : HeadersL
deriving DecidableEq, Repr

inductive ReqHeaderRes
  | ok (st : ReqState) (req : ParsedRequest) (fills : List Bytes)
  | err (e : HErr)
  | starved
deriving DecidableEq, Repr

/-- Continuation of `http1_request_header` after the protocol version has
fixed the keep-alive default `ka`: header loop, body preparation, buffer
trim, stage transition. -/
def reqHeaderFinish (st : ReqState) (pos : Nat) (buf : Bytes)
    (fills : List Bytes) (method url protocol : Bytes)
    (raw_headers : List Bytes) (ka : Bool) : ReqHeaderRes :=
  match processHeaders raw_headers ka with
  | none => .err (.invalidUsage "Bad Request")
  | some (hs, body, ka) =>
    match bodyPrep hs body st.expecting_continue with
    | .error e => .err e
    | .ok (ec, chunked, left, retain) =>
      -- One CRLF stays in the buffer for the chunk parser
      let pos := if retain then pos - 2 else pos
      .ok { st with
          keep_alive := ka
          expecting_continue := ec
          head_only := asciiUpper method = sbytes "HEAD"
          request_chunked := chunked
          request_bytes_left := left
          buf := buf.drop (pos + 4)
          stage := .handler }
        ⟨method, url, protocol.drop (protocol.length - 3), hs⟩ fills

/-- `Http.http1_request_header`: receive and parse one request header.
Parse failures inside the Python `try` block (decode, splits, unknown
protocol) become `InvalidUsage("Bad Request")`; `bodyPrep` failures occur
after it and propagate as themselves.  Note that
`HttpProtocol._total_request_size` is never touched here. -/
def http1_request_header (st : ReqState) (maxSize : Nat) (fills : List Bytes) :
    ReqHeaderRes :=
  match headerRecvLoop maxSize st.buf 0 fills with
  | .tooLarge => .err (.payloadTooLarge "Payload Too Large")
  | .starved => .starved
  | .found pos buf fills =>
    match decodeAscii (buf.take pos) with
    | none => .err (.invalidUsage "Bad Request")
    | some head =>
      match splitCRLF head with
      | [] => .err (.invalidUsage "Bad Request")
      | reqline :: raw_headers =>
        match splitByte 32 reqline with
        | [method, url, protocol] =>
          if protocol = sbytes "HTTP/1.1" then
            reqHeaderFinish st pos buf fills method url protocol raw_headers true
          else if protocol = sbytes "HTTP/1.0" then
            reqHeaderFinish st pos buf fills method url protocol raw_headers false
          else .err (.invalidUsage "Bad Request")
        | _ => .err (.invalidUsage "Bad Request")

/-! ## Request body reading (`Http.read`) -/

inductive ReadRes
  | ok (st : ReqState) (fills : List Bytes) (data : Option Bytes) (sent100 : Bool)
  | err (st : ReqState) (e : HErr)
  | starved
deriving DecidableEq, Repr

inductive ChunkScanRes
  | found (pos : Nat) (buf : Bytes) (fills : List Bytes)
  | tooLong (buf : Bytes)
  | starved
deriving DecidableEq, Repr

/-- The chunk-header loop of `Http.read` (lines 319-326): look for the
second CRLF starting at offset 3; if absent and more than 64 bytes are
buffered, fail; otherwise await another fill and rescan. -/
def chunkScan : Bytes → List Bytes → ChunkScanRes
  | buf, [] =>
    match bfind buf crlf 3 with
    | some pos => .found pos buf []
    | none => if buf.length > 64 then .tooLong buf else .starved
  | buf, f :: rest =>
    match bfind buf crlf 3 with
    | some pos => .found pos buf (f :: rest)
    | none =>
      if buf.length > 64 then .tooLong buf
      else chunkScan (buf ++ f) rest

/-- The `if not buf: await receive_more()` step: one fill is appended when
the buffer is empty (`none` models blocking with no data left). -/
def refillIfEmpty (buf : Bytes) (fills : List Bytes) :
    Option (Bytes × List Bytes) :=
  if buf = [] then
    match fills with
    | [] => none
    | f :: rest => some (buf ++ f, rest)
  else some (buf, fills)

/-- The tail of `Http.read` (lines 339-351): deliver up to
`request_bytes_left` buffered bytes, account them in `_total_request_size`,
and fail with `PayloadTooLarge` when the running total passes
`request_max_size`. -/
def readBody (st : ReqState) (maxSize : Nat) (fills : List Bytes)
    (sent100 : Bool) : ReadRes :=
  if st.request_bytes_left ≠ 0 then
    match refillIfEmpty st.buf fills with
    | none => .starved
    | some (buf, fills) =>
      let data := pySliceTo buf st.request_bytes_left
      let size : Nat := data.length
      let st' := { st with
        buf := buf.drop size
        request_bytes_left := st.request_bytes_left - size
        total := st.total + size }
      if st'.total > (maxSize : Int) then
        .err { st' with keep_alive := false } (.payloadTooLarge "Payload Too Large")
      else
        .ok st' fills (some data) sent100
  else .ok st fills none sent100

/-- `Http.read`: read some bytes of request body.  The `sent100` flag of the
result records whether the 100-continue preamble went out first. -/
def read (st : ReqState) (maxSize : Nat) (fills : List Bytes) : ReadRes :=
  -- Send a 100-continue if needed
  let sent100 := st.expecting_continue
  let st := { st with expecting_continue := false }
  if (st.request_chunked = true) ∧ (st.request_bytes_left = (0 : Int)) then
    -- Process a chunk header: \x5cr\x5cn<size>[;<chunk extensions>]\x5cr\x5cn
    match chunkScan st.buf fills with
    | .starved => .starved
    | .tooLong buf =>
      .err { st with keep_alive := false, buf := buf }
        (.invalidUsage "Bad chunked encoding")
    | .found pos buf fills =>
      let slice := (buf.drop 2).take (pos - 2)
      match (decodeAscii (slice.takeWhile (fun b => b ≠ 59))).bind pythonIntHex with
      | none =>
        .err { st with keep_alive := false, buf := buf }
          (.invalidUsage "Bad chunked encoding")
      | some size =>
        let st := { st with
          request_bytes_left := size
          total := st.total + ((pos : Int) + 2)
          buf := buf.drop (pos + 2) }
        if size ≤ 0 then
          .ok { st with request_chunked := false } fills none sent100
        else readBody st maxSize fills sent100
  else readBody st maxSize fills sent100

/-- `Http.__aiter__` driven to completion: iterate `read` until it yields
no (or empty) data; `none` for an exception, starvation or fuel exhaustion. -/
def drainF (maxSize : Nat) : Nat → ReqState → List Bytes → Option ReqState
  | 0, _, _ => none
  | fuel + 1, st, fills =>
    match read st maxSize fills with
    | .ok st' fills' (some d) _ =>
      if d = [] then some st' else drainF maxSize fuel st' fills'
    | .ok st' _ none _ => some st'
    | .err _ _ => none
    | .starved => none

/-! ## Timeout watchdog (`HttpProtocol.check_timeouts`, `sanic/server.py`) -/

inductive WatchdogAction
  | cancel (exc : Option HErr)
  | reschedule (delay : ℚ)
deriving DecidableEq, Repr

/-- The rescheduling delay `max(0.1, min(timeouts) / 2)`. -/
def watchdogInterval (keep_alive_timeout request_timeout response_timeout : ℚ) :
    ℚ :=
  max (1 / 10) (min keep_alive_timeout (min request_timeout response_timeout) / 2)

/-- `HttpProtocol.check_timeouts`, given that the connection task is alive:
`duration = now - last_activity`; cancel with the stage's timeout exception
attached (none for keep-alive expiry), or re-arm after the watchdog
interval. -/
def check_timeouts (stage : Stage)
    (duration keep_alive_timeout request_timeout response_timeout : ℚ) :
    WatchdogAction :=
  if stage = .idle ∧ duration > keep_alive_timeout then
    .cancel none
  else if stage = .request ∧ duration > request_timeout then
    .cancel (some (.requestTimeout "Request Timeout"))
  else if (stage = .handler ∨ stage = .response ∨ stage = .failed)
      ∧ duration > response_timeout then
    .cancel (some (.serviceUnavailable "Response Timeout"))
  else
    .reschedule (watchdogInterval keep_alive_timeout request_timeout response_timeout)

/-! ## Theorems -/

/-- Behaviour of one successful `normal`-framer call: the input chunk passes
through unchanged and the remaining-byte counter drops by its length. -/
lemma http1_response_normal_ok (st : HttpState) (d : Bytes) (e : Bool)
    (st' : HttpState) (out : Option Bytes)
    (h : http1_response_normal st d e = .ok st' out) :
    out = some d ∧
    st'.response_bytes_left = st.response_bytes_left - d.length := by
  simp only [http1_response_normal] at h
  by_cases h1 : st.response_bytes_left - (d.length : Int) ≤ 0
  · rw [if_pos h1] at h
    by_cases h2 : st.response_bytes_left - (d.length : Int) < 0
    · rw [if_pos h2] at h; exact absurd h (by simp)
    · rw [if_neg h2] at h
      simp only [FramerRes.ok.injEq] at h
      obtain ⟨h4, h5⟩ := h
      subst h4; subst h5
      exact ⟨rfl, rfl⟩
  · rw [if_neg h1] at h
    by_cases h3 : e = true
    · rw [if_pos h3] at h; exact absurd h (by simp)
    · rw [if_neg h3] at h
      simp only [FramerRes.ok.injEq] at h
      obtain ⟨h4, h5⟩ := h
      subst h4; subst h5
      exact ⟨rfl, rfl⟩

/-- C1: for the fixed-length (`normal`) framing strategy, each
`send(data, end_stream)` decrements `response_bytes_left` by `len(data)`;
a result of exactly zero terminates the response (stage becomes IDLE), a
negative result raises `ServerError("Response was bigger than
content-length")`, a positive result with `end_stream` raises
`ServerError("Response was smaller than content-length")`, and otherwise
the data passes through; consequently any successful run of sends through
this framer puts exactly the consumed part of the declared content-length
on the wire (the run that reaches zero emits exactly the declared count). -/
theorem http1_response_normal_spec :
    (∀ (st : HttpState) (data : Bytes) (es : Bool),
      (st.response_bytes_left - data.length = 0 →
        http1_response_normal st data es =
          .ok { st with response_bytes_left := 0, func := .noFunc,
                        stage := .idle } (some data)) ∧
      (st.response_bytes_left - data.length < 0 →
        http1_response_normal st data es =
          .err { st with
                  response_bytes_left := st.response_bytes_left - data.length }
            (.serverError "Response was bigger than content-length")) ∧
      (0 < st.response_bytes_left - data.length → es = true →
        http1_response_normal st data es =
          .err { st with
                  response_bytes_left := st.response_bytes_left - data.length }
            (.serverError "Response was smaller than content-length")) ∧
      (0 < st.response_bytes_left - data.length → es = false →
        http1_response_normal st data es =
          .ok { st with
                  response_bytes_left := st.response_bytes_left - data.length }
            (some data))) ∧
    (∀ (st : HttpState) (sends : List (Bytes × Bool)) (stf : HttpState) (n : Nat),
      runNormal st sends = some (stf, n) →
        (n : Int) = st.response_bytes_left - stf.response_bytes_left) := by
  constructor
  · intro st data es
    refine ⟨?_, ?_, ?_, ?_⟩
    · intro h
      simp [http1_response_normal, h]
    · intro h
      simp [http1_response_normal, h, h.le]
    · intro h he
      simp [http1_response_normal, h.not_le, not_lt_of_lt h, he]
    · intro h he
      simp [http1_response_normal, h.not_le, not_lt_of_lt h, he]
  · intro st sends
    induction sends generalizing st with
    | nil =>
      intro stf n h
      simp only [runNormal, Option.some.injEq, Prod.mk.injEq] at h
      obtain ⟨h1, h2⟩ := h
      subst h1; subst h2
      simp
    | cons de rest ih =>
      intro stf n h
      obtain ⟨d, e⟩ := de
      rw [runNormal] at h
      split at h
      · exact absurd h (by simp)
      · rename_i st' out hstep
        split at h
        · exact absurd h (by simp)
        · rename_i stf' m hrec
          simp only [Option.some.injEq, Prod.mk.injEq] at h
          obtain ⟨h1, h2⟩ := h
          subst h1
          obtain ⟨hout, hleft⟩ := http1_response_normal_ok st d e st' out hstep
          subst hout
          have hm := ih st' stf' m hrec
          subst h2
          simp only [Option.getD_some] at *
          push_cast
          omega

/-- Witness for C1 at a concrete run: declared length 5, sent as
`"hel"` then `"lo"` with `end_stream`. -/
theorem http1_response_normal_spec_witness :
    ((5 : Nat) : Int) =
      (⟨Stage.response, true, false, false, none, .normal, 5⟩ :
        HttpState).response_bytes_left -
      (⟨Stage.idle, true, false, false, none, .noFunc, 0⟩ :
        HttpState).response_bytes_left :=
  http1_response_normal_spec.2
    ⟨Stage.response, true, false, false, none, .normal, 5⟩
    [(sbytes "hel", false), (sbytes "lo", true)]
    ⟨Stage.idle, true, false, false, none, .noFunc, 0⟩ 5 (by decide)

/-- Looking up the key just set. -/
lemma hfind_hset_self (hs : HeadersL) (k v : Bytes) :
    hfind (hset hs k v) k = some v := by
  induction hs with
  | nil => simp [hfind, hset, List.find?]
  | cons p rest ih =>
    by_cases h : p.1 == k
    · simp [hset, hfind, List.filter_cons, h]
    · simp [hset, hfind, List.filter_cons, h, List.find?]

/-- Setting one key does not affect lookups of another. -/
lemma hfind_hset_ne (hs : HeadersL) (k k2 v : Bytes) (h : ¬(k2 == k)) :
    hfind (hset hs k2 v) k = hfind hs k := by
  induction hs with
  | nil => simp [hfind, hset, List.find?, h]
  | cons p rest ih =>
    by_cases hp : p.1 == k2
    · have hpk : ¬(p.1 == k) = true := by
        intro hc
        exact h (by simp_all)
      simpa [hset, hfind, List.filter_cons, hp, hpk, List.find?] using ih
    · by_cases hpk : p.1 == k
      · simp [hset, hfind, List.filter_cons, hp, hpk, List.find?]
      · simpa [hset, hfind, List.filter_cons, hp, hpk, List.find?] using ih

/-- With `end_stream = true` the branch chain always succeeds and keeps
`end_stream` true (the fixed-length and chunked streaming branches require
`end_stream = false`). -/
lemma startBranch_es_true (st : HttpState) (hs : HeadersL) (status : Int)
    (data : Bytes) :
    ∃ b, startBranch st hs status data true = .ok b ∧ b.es = true := by
  unfold startBranch
  repeat' split
  all_goals first
    | exact ⟨_, rfl, rfl⟩
    | (exfalso; simp_all)

/-- For a HEAD request the branch chain always succeeds (the only failing
branch needs a `content-length` header yet `¬(head_only ∧ content-length)`
from the preceding branch). -/
lemma startBranch_head_ok (st : HttpState) (hs : HeadersL) (status : Int)
    (data : Bytes) (es : Bool) (h : st.head_only = true) :
    ∃ b, startBranch st hs status data es = .ok b := by
  unfold startBranch
  repeat' split
  all_goals first
    | exact ⟨_, rfl⟩
    | (exfalso; simp_all)

/-- `startEs` with a true argument is true. -/
lemma startEs_true (res : Response) (data : Bytes) :
    startEs res data true = true := by
  unfold startEs
  split <;> rfl

/-- A first `send` with `end_stream = true` always succeeds, ends the
response (stage IDLE) and leaves `keep_alive` and the registered response
untouched. -/
lemma http1_response_start_end_true (st : HttpState) (res : Response)
    (data : Bytes) :
    ∃ o, http1_response_start st res data true = .ok o ∧ o.st.stage = .idle ∧
      o.st.keep_alive = st.keep_alive ∧ o.st.response = st.response := by
  unfold http1_response_start
  rw [startEs_true]
  obtain ⟨b, hb, hbes⟩ :=
    startBranch_es_true st (startHeaders res) res.status (startData res data)
  rw [hb]
  exact ⟨_, rfl, by simp [hbes], rfl, rfl⟩

/-- Whether the error path produced response bytes. -/
def respondedQ : ErrorRespRes → Bool
  | .responded _ _ => true
  | _ => false

/-- The HANDLER-stage error path: `handle_exception`'s response goes out via
`respond(...).send(end_stream=True)`. -/
lemma error_response_handler_path (st : HttpState) (er : Response)
    (h200 : 200 ≤ er.status) (hh : st.stage = .handler) :
    ∃ o, error_response st er = .responded o.st o ∧ o.st.stage = .idle ∧
      o.st.keep_alive = st.keep_alive := by
  have hA : ¬(st.stage ≠ Stage.handler) := by simp [hh]
  have hB : ¬(st.stage = Stage.request) := by simp [hh]
  simp only [error_response]
  rw [if_neg hA, if_neg hB, if_pos hh]
  have hresp : respond st er = .ok { st with response := some er } := by
    unfold respond
    rw [if_neg hA, if_neg (not_lt.mpr h200)]
  simp only [hresp]
  obtain ⟨o, ho, h2, h3, h4⟩ :=
    http1_response_start_end_true { st with response := some er } er []
  simp only [ho]
  exact ⟨o, rfl, h2, by simpa using h3⟩

/-- The REQUEST-stage error path: keep-alive off, stage promoted, response
emitted. -/
lemma error_response_request_path (st : HttpState) (er : Response)
    (h200 : 200 ≤ er.status) (hh : st.stage = .request) :
    ∃ o, error_response st er = .responded o.st o ∧ o.st.stage = .idle ∧
      o.st.keep_alive = false := by
  have hA : st.stage ≠ Stage.handler := by simp [hh]
  have hB : ({ st with keep_alive := false } : HttpState).stage =
      Stage.request := by simpa using hh
  have hC : ({ st with keep_alive := false, stage := Stage.handler } :
      HttpState).stage = Stage.handler := rfl
  simp only [error_response]
  rw [if_pos hA, if_pos hB, if_pos hC]
  have hresp :
      respond { st with keep_alive := false, stage := .handler } er =
        .ok { st with keep_alive := false, stage := .handler,
                      response := some er } := by
    unfold respond
    rw [if_neg (by simp), if_neg (not_lt.mpr h200)]
  simp only [hresp]
  obtain ⟨o, ho, h2, h3, h4⟩ :=
    http1_response_start_end_true
      { st with keep_alive := false, stage := .handler, response := some er }
      er []
  simp only [ho]
  exact ⟨o, rfl, h2, by simpa using h3⟩

/-- C6: an exception routed through `error_response` is answered with an
error response exactly from the REQUEST stage (promoted to HANDLER first,
keep-alive off) and from the HANDLER stage (keep-alive kept); the response
goes out with `end_stream=true` (so the stage ends at IDLE); in every other
stage (IDLE, RESPONSE, FAILED) keep-alive is turned off and nothing is sent
— the connection closes silently. -/
theorem error_response_spec :
    ∀ (st : HttpState) (er : Response), 200 ≤ er.status →
      (st.stage = .request →
        respondedQ (error_response st er) = true ∧
        ∀ st2 o, error_response st er = .responded st2 o →
          st2.keep_alive = false ∧ st2.stage = .idle) ∧
      (st.stage = .handler →
        respondedQ (error_response st er) = true ∧
        ∀ st2 o, error_response st er = .responded st2 o →
          st2.keep_alive = st.keep_alive ∧ st2.stage = .idle) ∧
      (st.stage = .idle ∨ st.stage = .response ∨ st.stage = .failed →
        error_response st er = .silent { st with keep_alive := false }) := by
  intro st er h200
  refine ⟨?_, ?_, ?_⟩
  · intro hreq
    obtain ⟨o, ho, hidle, hka⟩ := error_response_request_path st er h200 hreq
    rw [ho]
    refine ⟨rfl, ?_⟩
    intro st2 o2 h2
    injection h2 with ha hb
    subst ha
    exact ⟨hka, hidle⟩
  · intro hh
    obtain ⟨o, ho, hidle, hka⟩ := error_response_handler_path st er h200 hh
    rw [ho]
    refine ⟨rfl, ?_⟩
    intro st2 o2 h2
    injection h2 with ha hb
    subst ha
    exact ⟨hka, hidle⟩
  · intro hother
    have h1 : st.stage ≠ .handler := by
      rcases hother with h | h | h <;> simp [h]
    have h2 : st.stage ≠ .request := by
      rcases hother with h | h | h <;> simp [h]
    have hB2 : ¬(({ st with keep_alive := false } : HttpState).stage =
        Stage.request) := by simpa using h2
    have hC2 : ¬(({ st with keep_alive := false } : HttpState).stage =
        Stage.handler) := by simpa using h1
    simp only [error_response]
    rw [if_pos h1, if_neg hB2, if_neg hC2]

/-- Witness for C6: a 500 error raised while parsing the request (REQUEST
stage) produces an error response. -/
theorem error_response_spec_witness :
    (⟨Stage.request, true, false, false, none, .start, 0⟩ :
        HttpState).stage = .request ∧
    respondedQ
      (error_response ⟨Stage.request, true, false, false, none, .start, 0⟩
        ⟨500, sbytes "err", none, []⟩) = true :=
  ⟨rfl,
    ((error_response_spec ⟨Stage.request, true, false, false, none, .start, 0⟩
      ⟨500, sbytes "err", none, []⟩ (by decide)).1 rfl).1⟩

/-- C7: for a HEAD request (`head_only`), the first `send` always succeeds,
hands `format_http1_response` an empty body — so the framed response is the
status line and headers with zero body bytes after them, whatever the
handler passed — and installs `head_response_ignored`, which discards all
subsequent data silently and returns the stage to IDLE on `end_stream`. -/
theorem head_only_response_spec :
    ∀ (st : HttpState) (res : Response) (data : Bytes) (es : Bool),
      st.head_only = true →
      (∀ st2 e2, http1_response_start st res data es ≠ .err st2 e2) ∧
      (∀ o, http1_response_start st res data es = .ok o →
        o.dataOut = some [] ∧ o.st.func = .headIgnored ∧
        startBytes o =
          (if o.sent100 then HTTP_CONTINUE else []) ++
            headerBlock o.status o.headersOut ∧
        (es = true → o.st.stage = .idle)) ∧
      (∀ st2 d, head_response_ignored st2 d false = .ok st2 none) ∧
      (∀ st2 d, head_response_ignored st2 d true =
        .ok { st2 with func := .noFunc, stage := .idle } none) := by
  intro st res data es hho
  obtain ⟨b, hb⟩ :=
    startBranch_head_ok st (startHeaders res) res.status (startData res data)
      (startEs res data es) hho
  refine ⟨?_, ?_, ?_, ?_⟩
  · intro st2 e2 hcontra
    unfold http1_response_start at hcontra
    rw [hb] at hcontra
    exact absurd hcontra (by simp)
  · intro o ho
    unfold http1_response_start at ho
    rw [hb] at ho
    simp only [StartRes.ok.injEq] at ho
    subst ho
    refine ⟨by simp [hho], by simp [hho], ?_, ?_⟩
    · simp [startBytes, format_http1_response, hho]
    · intro hes
      subst hes
      rw [startEs_true] at hb
      obtain ⟨b2, hb2, hb2es⟩ :=
        startBranch_es_true st (startHeaders res) res.status (startData res data)
      have hbb : b = b2 := by
        rw [hb] at hb2
        exact Except.ok.inj hb2
      subst hbb
      simp [hb2es]
  · intro st2 d
    simp [head_response_ignored]
  · intro st2 d
    simp [head_response_ignored]

/-- Witness for C7: discarding body data after a HEAD response's headers,
then ending the stream. -/
theorem head_only_response_spec_witness :
    (⟨Stage.response, true, true, false, none, .headIgnored, 0⟩ :
        HttpState).head_only = true ∧
    head_response_ignored
        ⟨Stage.response, true, true, false, none, .headIgnored, 0⟩
        (sbytes "body") true =
      .ok ⟨Stage.idle, true, true, false, none, .noFunc, 0⟩ none :=
  ⟨rfl,
    (head_only_response_spec
      ⟨Stage.response, true, true, false, none, .headIgnored, 0⟩
      ⟨200, [], none, []⟩ [] true rfl).2.2.2
      ⟨Stage.response, true, true, false, none, .headIgnored, 0⟩ (sbytes "body")⟩

/-- C10: on the first `send` of a response, an empty `data` argument with a
nonempty registered `response.body` substitutes the body for the data and
forces `end_stream` (whatever was passed), so `respond(r).send()` emits
`r.body` as a single-shot response with `content-length = len(r.body)` and
the stage returns to IDLE. -/
theorem response_body_substitution_spec :
    ∀ (st : HttpState) (res : Response) (es : Bool),
      st.head_only = false →
      has_message_body res.status = true →
      res.body ≠ [] →
      (∀ o, http1_response_start st res [] es = .ok o →
        o.dataOut = some res.body ∧
        hfind o.headersOut (sbytes "content-length") =
          some (natToDec res.body.length) ∧
        o.st.stage = .idle ∧ o.st.func = .noFunc) ∧
      (∀ st2 e2, http1_response_start st res [] es ≠ .err st2 e2) ∧
      (st.func = .start → st.response = some res →
        ∀ o, http1_response_start st res [] true = .ok o →
          send st none none = .ok o.st (some (startBytes o))) := by
  intro st res es hho hmb hbody
  have hd : startData res [] = res.body := by simp [startData, hbody]
  have he : startEs res [] es = true := by simp [startEs, hbody]
  have hsb : startBranch st (startHeaders res) res.status res.body true =
      .ok ⟨some res.body, true,
        hset (startHeaders res) (sbytes "content-length")
          (natToDec res.body.length),
        .noFunc, st.response_bytes_left⟩ := by
    unfold startBranch
    rw [if_neg (by simp [hmb]), if_neg (by simp [hho]),
      if_pos (rfl : (true : Bool) = true)]
  refine ⟨?_, ?_, ?_⟩
  · intro o ho
    unfold http1_response_start at ho
    rw [hd, he, hsb] at ho
    simp only [StartRes.ok.injEq] at ho
    subst ho
    refine ⟨by simp [hho], ?_, by simp, by simp [hho]⟩
    rw [hfind_hset_ne _ _ _ _ (by decide), hfind_hset_self]
  · intro st2 e2 hcontra
    unfold http1_response_start at hcontra
    rw [hd, he, hsb] at hcontra
    exact absurd hcontra (by simp)
  · intro hfunc hresp o ho
    unfold send
    rw [hfunc, hresp]
    simp [ho]

/-- Witness for C10: `respond(r).send()` with `r.body = "hi"` and no
explicit data emits `content-length: 2` and body `"hi"`. -/
theorem response_body_substitution_spec_witness :
    has_message_body (200 : Int) = true ∧
    (⟨200, sbytes "hi", some (sbytes "text/plain"), []⟩ : Response).body ≠ [] ∧
    (⟨⟨Stage.idle, true, false, false,
        some ⟨200, sbytes "hi", some (sbytes "text/plain"), []⟩,
        FramerTag.noFunc, 0⟩,
      200,
      [(sbytes "content-type", sbytes "text/plain"),
       (sbytes "content-length", sbytes "2"),
       (sbytes "connection", sbytes "keep-alive")],
      some (sbytes "hi"), false⟩ : StartOut).dataOut =
      some (⟨200, sbytes "hi", some (sbytes "text/plain"), []⟩ : Response).body :=
  ⟨by decide, by decide,
    ((response_body_substitution_spec
      ⟨Stage.handler, true, false, false,
        some ⟨200, sbytes "hi", some (sbytes "text/plain"), []⟩,
        FramerTag.start, 0⟩
      ⟨200, sbytes "hi", some (sbytes "text/plain"), []⟩ true rfl (by decide)
      (by decide)).1
      ⟨⟨Stage.idle, true, false, false,
          some ⟨200, sbytes "hi", some (sbytes "text/plain"), []⟩,
          FramerTag.noFunc, 0⟩,
        200,
        [(sbytes "content-type", sbytes "text/plain"),
         (sbytes "content-length", sbytes "2"),
         (sbytes "connection", sbytes "keep-alive")],
        some (sbytes "hi"), false⟩
      (by decide)).1⟩

/-- C5: `respond(response)` succeeds exactly in the HANDLER stage, where it
registers (and on repeated calls replaces) the response object and changes
nothing else (in particular no bytes are emitted and the stage stays
HANDLER until the first `send`); outside HANDLER it moves the stage to
FAILED and raises; a status below 200 raises.  (Python's `isinstance`
integer check is subsumed by the `Int` type of `status` here.) -/
theorem respond_spec :
    ∀ (st : HttpState) (r r2 : Response),
      (st.stage ≠ .handler →
        respond st r =
          .err { st with stage := .failed }
            (.runtimeError "Response already started")) ∧
      (st.stage = .handler → r.status < 200 →
        respond st r = .err st (.runtimeError "Invalid response status")) ∧
      (st.stage = .handler → 200 ≤ r.status →
        respond st r = .ok { st with response := some r } ∧
        ({ st with response := some r } : HttpState).stage = .handler ∧
        (200 ≤ r2.status →
          respond { st with response := some r } r2 =
            .ok { st with response := some r2 })) := by
  intro st r r2
  refine ⟨?_, ?_, ?_⟩
  · intro h
    simp [respond, h]
  · intro h hs
    simp [respond, h, hs]
  · intro h hs
    have h1 : ¬(st.stage ≠ Stage.handler) := by simp [h]
    refine ⟨?_, by simp [h], ?_⟩
    · unfold respond
      rw [if_neg h1, if_neg (not_lt.mpr hs)]
    · intro hs2
      have h3 : ¬(({ st with response := some r } : HttpState).stage ≠ Stage.handler) := by
        simp [h]
      unfold respond
      rw [if_neg h3, if_neg (not_lt.mpr hs2)]

/-- Witness for C5: a 200 response registered in HANDLER stage, then
replaced by a 404 one. -/
theorem respond_spec_witness :
    (⟨Stage.handler, true, false, false, none, .start, 0⟩ :
        HttpState).stage = .handler ∧
    200 ≤ (⟨200, [], none, []⟩ : Response).status ∧
    respond ⟨Stage.handler, true, false, false, none, .start, 0⟩
        ⟨200, [], none, []⟩ =
      .ok ⟨Stage.handler, true, false, false, some ⟨200, [], none, []⟩, .start, 0⟩ :=
  ⟨rfl, by decide,
    ((respond_spec ⟨Stage.handler, true, false, false, none, .start, 0⟩
      ⟨200, [], none, []⟩ ⟨404, [], none, []⟩).2.2 rfl (by decide)).1⟩

/-- C9: the watchdog decision table — IDLE past `keep_alive_timeout`
cancels with no exception attached; REQUEST past `request_timeout` attaches
`RequestTimeout`; HANDLER/RESPONSE/FAILED past `response_timeout` attaches
`ServiceUnavailable("Response Timeout")`; otherwise it re-arms after
`max(0.1, min(timeouts)/2)` — and consequently an idle connection with no
activity is cancelled no later than `keep_alive_timeout` plus one watchdog
interval after last activity (firings every interval, duration `m·i`). -/
theorem check_timeouts_spec :
    (∀ (d kat rt pt : ℚ), kat < d →
      check_timeouts .idle d kat rt pt = .cancel none) ∧
    (∀ (d kat rt pt : ℚ), rt < d →
      check_timeouts .request d kat rt pt =
        .cancel (some (.requestTimeout "Request Timeout"))) ∧
    (∀ (s : Stage) (d kat rt pt : ℚ),
      (s = .handler ∨ s = .response ∨ s = .failed) → pt < d →
      check_timeouts s d kat rt pt =
        .cancel (some (.serviceUnavailable "Response Timeout"))) ∧
    (∀ (s : Stage) (d kat rt pt : ℚ),
      ¬(s = .idle ∧ kat < d) → ¬(s = .request ∧ rt < d) →
      ¬((s = .handler ∨ s = .response ∨ s = .failed) ∧ pt < d) →
      check_timeouts s d kat rt pt =
        .reschedule (max (1 / 10) (min kat (min rt pt) / 2))) ∧
    (∀ (kat rt pt : ℚ), 0 ≤ kat →
      ∃ n : ℕ,
        (∀ m : ℕ, m < n →
          check_timeouts .idle (m * watchdogInterval kat rt pt) kat rt pt =
            .reschedule (watchdogInterval kat rt pt)) ∧
        check_timeouts .idle (n * watchdogInterval kat rt pt) kat rt pt =
          .cancel none ∧
        (n : ℚ) * watchdogInterval kat rt pt ≤
          kat + watchdogInterval kat rt pt) := by
  refine ⟨?_, ?_, ?_, ?_, ?_⟩
  · intro d kat rt pt h
    simp [check_timeouts, h]
  · intro d kat rt pt h
    simp [check_timeouts, h]
  · intro s d kat rt pt hs h
    rcases hs with hs | hs | hs <;> subst hs <;> simp [check_timeouts, h]
  · intro s d kat rt pt h1 h2 h3
    simp only [check_timeouts, watchdogInterval, if_neg h1, if_neg h2, if_neg h3]
  · intro kat rt pt hkat
    set i := watchdogInterval kat rt pt with hi_def
    have hi : (1 : ℚ) / 10 ≤ i := le_max_left _ _
    have hipos : (0 : ℚ) < i := lt_of_lt_of_le (by norm_num) hi
    have hdiv : (0 : ℚ) ≤ kat / i := div_nonneg hkat hipos.le
    refine ⟨⌊kat / i⌋₊ + 1, ?_, ?_, ?_⟩
    · intro m hm
      have hm2 : (m : ℚ) ≤ ⌊kat / i⌋₊ := by exact_mod_cast Nat.lt_succ_iff.mp hm
      have hm3 : (m : ℚ) ≤ kat / i := le_trans hm2 (Nat.floor_le hdiv)
      have hm4 : (m : ℚ) * i ≤ kat := (le_div_iff₀ hipos).mp hm3
      simp [check_timeouts, not_lt.mpr hm4]
    · have h1 : kat / i < (⌊kat / i⌋₊ + 1 : ℚ) := Nat.lt_floor_add_one _
      have h2 : kat < ((⌊kat / i⌋₊ : ℚ) + 1) * i := by
        rw [div_lt_iff₀ hipos] at h1
        linarith
      have h3 : kat < ((⌊kat / i⌋₊ + 1 : ℕ) : ℚ) * i := by push_cast; exact h2
      simp [check_timeouts, h2, h3]
    · have h1 : (⌊kat / i⌋₊ : ℚ) * i ≤ kat := (le_div_iff₀ hipos).mp (Nat.floor_le hdiv)
      push_cast
      nlinarith

/-- Witness for C9: keep-alive timeout 1s exceeded by an idle duration of
2s cancels without an exception. -/
theorem check_timeouts_spec_witness :
    (1 : ℚ) < 2 ∧ check_timeouts .idle 2 1 2 3 = .cancel none :=
  ⟨by norm_num, check_timeouts_spec.1 2 1 2 3 (by norm_num)⟩

/-! ### Characterisation of `bfind` and the header receive loop -/

lemma bfindGo_some (buf pat : Bytes) :
    ∀ (fuel start p : Nat), bfindGo buf pat start fuel = some p →
      start ≤ p ∧ p < start + fuel ∧ pat.isPrefixOf (buf.drop p) = true ∧
      ∀ j, start ≤ j → j < p → ¬(pat.isPrefixOf (buf.drop j) = true) := by
  intro fuel
  induction fuel with
  | zero => intro start p h; exact absurd h (by simp [bfindGo])
  | succ n ih =>
    intro start p h
    rw [bfindGo] at h
    by_cases hp : pat.isPrefixOf (buf.drop start) = true
    · rw [if_pos hp] at h
      injection h with h
      subst h
      exact ⟨le_rfl, by omega, hp,
        fun j h1 h2 => absurd (lt_of_le_of_lt h1 h2) (lt_irrefl _)⟩
    · rw [if_neg hp] at h
      obtain ⟨h1, h2, h3, h4⟩ := ih (start + 1) p h
      refine ⟨by omega, by omega, h3, ?_⟩
      intro j hj1 hj2
      rcases Nat.eq_or_lt_of_le hj1 with he | hl
      · subst he; exact hp
      · exact h4 j hl hj2

lemma bfindGo_none (buf pat : Bytes) :
    ∀ (fuel start : Nat), bfindGo buf pat start fuel = none →
      ∀ j, start ≤ j → j < start + fuel →
        ¬(pat.isPrefixOf (buf.drop j) = true) := by
  intro fuel
  induction fuel with
  | zero => intro start _ j _ h2; omega
  | succ n ih =>
    intro start h j hj1 hj2
    rw [bfindGo] at h
    by_cases hp : pat.isPrefixOf (buf.drop start) = true
    · rw [if_pos hp] at h; cases h
    · rw [if_neg hp] at h
      rcases Nat.eq_or_lt_of_le hj1 with he | hl
      · subst he; exact hp
      · exact ih (start + 1) h j hl (by omega)

lemma bfindGo_some_of (buf pat : Bytes) :
    ∀ (fuel start p : Nat), start ≤ p → p < start + fuel →
      pat.isPrefixOf (buf.drop p) = true →
      (∀ j, start ≤ j → j < p → ¬(pat.isPrefixOf (buf.drop j) = true)) →
      bfindGo buf pat start fuel = some p := by
  intro fuel
  induction fuel with
  | zero => intro start p h1 h2; omega
  | succ n ih =>
    intro start p h1 h2 h3 h4
    rw [bfindGo]
    rcases Nat.eq_or_lt_of_le h1 with he | hl
    · subst he; rw [if_pos h3]
    · rw [if_neg (h4 start le_rfl hl)]
      exact ih (start + 1) p hl (by omega) h3 (fun j hj1 hj2 => h4 j (by omega) hj2)

/-- A nonempty pattern can only match strictly inside the buffer. -/
lemma prefix_imp_lt (buf pat : Bytes) (p : Nat) (hpat : pat ≠ [])
    (h : pat.isPrefixOf (buf.drop p) = true) : p < buf.length := by
  rw [List.isPrefixOf_iff_prefix] at h
  have h1 := h.length_le
  have h2 : 1 ≤ pat.length := List.length_pos.mpr hpat
  simp only [List.length_drop] at h1
  omega

lemma bfind_none (buf pat : Bytes) (start : Nat) (hpat : pat ≠ [])
    (h : bfind buf pat start = none) :
    ∀ j, start ≤ j → ¬(pat.isPrefixOf (buf.drop j) = true) := by
  intro j hj hpre
  have hjlen : j < buf.length := prefix_imp_lt _ _ _ hpat hpre
  exact bfindGo_none buf pat _ start h j hj (by omega) hpre

lemma bfind_some (buf pat : Bytes) (start p : Nat)
    (h : bfind buf pat start = some p) :
    start ≤ p ∧ pat.isPrefixOf (buf.drop p) = true ∧
      ∀ j, start ≤ j → j < p → ¬(pat.isPrefixOf (buf.drop j) = true) := by
  obtain ⟨h1, _, h3, h4⟩ := bfindGo_some buf pat _ start p h
  exact ⟨h1, h3, h4⟩

lemma bfind_some_of (buf pat : Bytes) (start p : Nat) (hpat : pat ≠ [])
    (h1 : start ≤ p) (hpre : pat.isPrefixOf (buf.drop p) = true)
    (hmin : ∀ j, start ≤ j → j < p → ¬(pat.isPrefixOf (buf.drop j) = true)) :
    bfind buf pat start = some p := by
  have hp : p < buf.length := prefix_imp_lt _ _ _ hpat hpre
  exact bfindGo_some_of buf pat _ start p h1 (by omega) hpre hmin

/-- A match that fits inside the left part of an append was already there. -/
lemma isPrefixOf_append_inner (pat a b : Bytes) (j : Nat)
    (hj : j + pat.length ≤ a.length)
    (h : pat.isPrefixOf ((a ++ b).drop j) = true) :
    pat.isPrefixOf (a.drop j) = true := by
  have hja : j ≤ a.length := by omega
  rw [List.drop_append_of_le_length hja] at h
  rw [List.isPrefixOf_iff_prefix] at h ⊢
  rw [List.prefix_iff_eq_take] at h ⊢
  rw [List.take_append_of_le_length (by simp only [List.length_drop]; omega)] at h
  exact h

/-- A match inside the left part of an append survives the append. -/
lemma isPrefixOf_append_mono (pat a b : Bytes) (j : Nat) (hja : j ≤ a.length)
    (h : pat.isPrefixOf (a.drop j) = true) :
    pat.isPrefixOf ((a ++ b).drop j) = true := by
  rw [List.drop_append_of_le_length hja]
  rw [List.isPrefixOf_iff_prefix] at h ⊢
  exact h.trans (List.prefix_append _ _)

/-- The receive buffer after the first `k` fills have arrived. -/
def fillPrefix (buf0 : Bytes) (fills : List Bytes) (k : Nat) : Bytes :=
  buf0 ++ (fills.take k).flatten

lemma fillPrefix_zero (buf0 : Bytes) (fills : List Bytes) :
    fillPrefix buf0 fills 0 = buf0 := by simp [fillPrefix]

lemma fillPrefix_succ (buf0 f : Bytes) (rest : List Bytes) (k : Nat) :
    fillPrefix buf0 (f :: rest) (k + 1) = fillPrefix (buf0 ++ f) rest k := by
  simp [fillPrefix]

lemma fillPrefix_len (buf0 : Bytes) (fills : List Bytes) (k : Nat) :
    buf0.length ≤ (fillPrefix buf0 fills k).length := by simp [fillPrefix]

def isFound : HeaderRecvRes → Bool
  | .found _ _ _ => true
  | _ => false

/-- Soundness of the header receive loop: a `found` outcome really is a
terminator occurrence inside a buffer still below the size limit, and the
buffer is the initial one extended by some prefix of the fills. -/
lemma headerRecvLoop_found (maxSize : Nat) :
    ∀ (fills : List Bytes) (buf : Bytes) (pos p : Nat) (buf' : Bytes)
      (fl : List Bytes),
      headerRecvLoop maxSize buf pos fills = .found p buf' fl →
      buf'.length < maxSize ∧ crlfcrlf.isPrefixOf (buf'.drop p) = true ∧
      ∃ k, k ≤ fills.length ∧ buf' = fillPrefix buf fills k ∧
        fl = fills.drop k := by
  intro fills
  induction fills with
  | nil =>
    intro buf pos p buf' fl h
    rw [headerRecvLoop] at h
    by_cases h1 : buf.length < maxSize
    · rw [if_pos h1] at h
      by_cases h2 : buf ≠ []
      · rw [if_pos h2] at h
        rcases h3 : bfind buf crlfcrlf pos with _ | q <;> rw [h3] at h
        · cases h
        · injection h with ha hb hc
          subst ha; subst hb; subst hc
          exact ⟨h1, (bfind_some _ _ _ _ h3).2.1,
            0, by omega, (fillPrefix_zero _ _).symm, rfl⟩
      · rw [if_neg h2] at h; cases h
    · rw [if_neg h1] at h; cases h
  | cons f rest ih =>
    intro buf pos p buf' fl h
    rw [headerRecvLoop] at h
    by_cases h1 : buf.length < maxSize
    · rw [if_pos h1] at h
      by_cases h2 : buf ≠ []
      · rw [if_pos h2] at h
        rcases h3 : bfind buf crlfcrlf pos with _ | q <;> rw [h3] at h
        · obtain ⟨ha, hb, k, hk1, hk2, hk3⟩ := ih (buf ++ f) (buf.length - 3) p buf' fl h
          exact ⟨ha, hb, k + 1, by simpa using hk1,
            by rw [fillPrefix_succ]; exact hk2, by simpa using hk3⟩
        · injection h with ha hb hc
          subst ha; subst hb; subst hc
          exact ⟨h1, (bfind_some _ _ _ _ h3).2.1,
            0, by omega, (fillPrefix_zero _ _).symm, rfl⟩
      · rw [if_neg h2] at h
        obtain ⟨ha, hb, k, hk1, hk2, hk3⟩ := ih (buf ++ f) pos p buf' fl h
        exact ⟨ha, hb, k + 1, by simpa using hk1,
          by rw [fillPrefix_succ]; exact hk2, by simpa using hk3⟩
    · rw [if_neg h1] at h; cases h

/-- Completeness of the header receive loop: if after some fill the buffer
is still below the limit and contains the terminator — including when the
terminator straddles a fill boundary — the loop reports `found`.  The two
invariants say that `pos` never skips an occurrence. -/
lemma headerRecvLoop_complete (maxSize : Nat) :
    ∀ (fills : List Bytes) (buf : Bytes) (pos : Nat),
      (buf = [] → pos = 0) →
      (∀ j, j < pos → ¬(crlfcrlf.isPrefixOf (buf.drop j) = true)) →
      (∃ k, k ≤ fills.length ∧ (fillPrefix buf fills k).length < maxSize ∧
        occursFrom (fillPrefix buf fills k) crlfcrlf 0) →
      isFound (headerRecvLoop maxSize buf pos fills) = true := by
  intro fills
  induction fills with
  | nil =>
    intro buf pos hinv1 hinv2 ⟨k, hk1, hk2, i, _, hocc⟩
    have hk0 : k = 0 := by simpa using hk1
    subst hk0
    rw [fillPrefix_zero] at hk2 hocc
    have hlt : i < buf.length := prefix_imp_lt _ _ _ (by decide) hocc
    have hne : buf ≠ [] := by
      intro hnil
      rw [hnil] at hlt
      simp at hlt
    have hge : pos ≤ i := by
      by_contra hc
      exact hinv2 i (by omega) hocc
    rw [headerRecvLoop, if_pos hk2, if_pos hne]
    rcases h3 : bfind buf crlfcrlf pos with _ | q
    · exact absurd hocc (bfind_none _ _ _ (by decide) h3 i hge)
    · simp [isFound]
  | cons f rest ih =>
    intro buf pos hinv1 hinv2 ⟨k, hk1, hk2, i, _, hocc⟩
    have hblen : buf.length < maxSize :=
      lt_of_le_of_lt (fillPrefix_len buf (f :: rest) k) hk2
    rw [headerRecvLoop, if_pos hblen]
    by_cases h2 : buf ≠ []
    · rw [if_pos h2]
      rcases h3 : bfind buf crlfcrlf pos with _ | q
      · -- not yet in the buffer: recurse, occurrence cannot be below len-3
        have hnone : ∀ j, ¬(crlfcrlf.isPrefixOf (buf.drop j) = true) := by
          intro j
          by_cases hj : pos ≤ j
          · exact bfind_none _ _ _ (by decide) h3 j hj
          · exact hinv2 j (by omega)
        have hkpos : k ≠ 0 := by
          intro hk0
          subst hk0
          rw [fillPrefix_zero] at hocc
          exact hnone i hocc
        obtain ⟨k', rfl⟩ : ∃ k', k = k' + 1 := ⟨k - 1, by omega⟩
        apply ih (buf ++ f) (buf.length - 3)
        · intro hnil
          exact absurd (List.append_eq_nil.mp hnil).1 h2
        · intro j hj hpre
          have hj4 : j + 4 ≤ buf.length := by omega
          exact hnone j (isPrefixOf_append_inner _ _ _ _ (by simpa using hj4) hpre)
        · refine ⟨k', by simpa using hk1, ?_, ?_⟩
          · rw [← fillPrefix_succ]; exact hk2
          · rw [← fillPrefix_succ]; exact ⟨i, by omega, hocc⟩
      · simp [isFound]
    · rw [if_neg h2]
      have hbe : buf = [] := by simpa using h2
      have hp0 : pos = 0 := hinv1 hbe
      have hkpos : k ≠ 0 := by
        intro hk0
        subst hk0
        rw [fillPrefix_zero] at hocc
        have := prefix_imp_lt _ _ _ (show crlfcrlf ≠ [] by decide) hocc
        rw [hbe] at this
        simp at this
      obtain ⟨k', rfl⟩ : ∃ k', k = k' + 1 := ⟨k - 1, by omega⟩
      apply ih (buf ++ f) pos
      · intro _; exact hp0
      · intro j hj
        rw [hp0] at hj
        omega
      · refine ⟨k', by simpa using hk1, ?_, ?_⟩
        · rw [← fillPrefix_succ]; exact hk2
        · rw [← fillPrefix_succ]; exact ⟨i, by omega, hocc⟩

/-- The `PayloadTooLarge` outcome means the buffer reached the limit after
some fill. -/
lemma headerRecvLoop_tooLarge (maxSize : Nat) :
    ∀ (fills : List Bytes) (buf : Bytes) (pos : Nat),
      headerRecvLoop maxSize buf pos fills = .tooLarge →
      ∃ k, k ≤ fills.length ∧ maxSize ≤ (fillPrefix buf fills k).length := by
  intro fills
  induction fills with
  | nil =>
    intro buf pos h
    rw [headerRecvLoop] at h
    by_cases h1 : buf.length < maxSize
    · rw [if_pos h1] at h
      by_cases h2 : buf ≠ []
      · rw [if_pos h2] at h
        rcases h3 : bfind buf crlfcrlf pos with _ | q <;> rw [h3] at h <;> cases h
      · rw [if_neg h2] at h; cases h
    · exact ⟨0, by omega, by rw [fillPrefix_zero]; omega⟩
  | cons f rest ih =>
    intro buf pos h
    rw [headerRecvLoop] at h
    by_cases h1 : buf.length < maxSize
    · rw [if_pos h1] at h
      by_cases h2 : buf ≠ []
      · rw [if_pos h2] at h
        rcases h3 : bfind buf crlfcrlf pos with _ | q <;> rw [h3] at h
        · obtain ⟨k, hk1, hk2⟩ := ih (buf ++ f) (buf.length - 3) h
          exact ⟨k + 1, by simpa using hk1, by rw [fillPrefix_succ]; exact hk2⟩
        · cases h
      · rw [if_neg h2] at h
        obtain ⟨k, hk1, hk2⟩ := ih (buf ++ f) pos h
        exact ⟨k + 1, by simpa using hk1, by rw [fillPrefix_succ]; exact hk2⟩
    · exact ⟨0, by omega, by rw [fillPrefix_zero]; omega⟩

/-- C3 (amended): header reception succeeds exactly when the four-byte
terminator appears while the buffer is still strictly below
`request_max_size` — the scan-resume position `max(0, len(buf)-3)` never
misses a terminator that straddles a fill boundary — and raises
`PayloadTooLarge` once the buffer reaches (not merely exceeds)
`request_max_size` without the terminator having been found in a
strictly-smaller buffer. -/
theorem header_terminator_scan_spec :
    ∀ (maxSize : Nat) (buf0 : Bytes) (fills : List Bytes),
      (∀ p buf' fl, headerRecvLoop maxSize buf0 0 fills = .found p buf' fl →
        buf'.length < maxSize ∧ crlfcrlf.isPrefixOf (buf'.drop p) = true ∧
        ∃ k, k ≤ fills.length ∧ buf' = fillPrefix buf0 fills k ∧
          fl = fills.drop k) ∧
      ((∃ k, k ≤ fills.length ∧ (fillPrefix buf0 fills k).length < maxSize ∧
          occursFrom (fillPrefix buf0 fills k) crlfcrlf 0) →
        isFound (headerRecvLoop maxSize buf0 0 fills) = true) ∧
      (headerRecvLoop maxSize buf0 0 fills = .tooLarge →
        ∃ k, k ≤ fills.length ∧ maxSize ≤ (fillPrefix buf0 fills k).length) :=
  fun maxSize buf0 fills =>
    ⟨fun p buf' fl h => headerRecvLoop_found maxSize fills buf0 0 p buf' fl h,
     fun hex =>
       headerRecvLoop_complete maxSize fills buf0 0 (fun _ => rfl)
         (fun j hj => absurd hj (Nat.not_lt_zero j)) hex,
     fun h => headerRecvLoop_tooLarge maxSize fills buf0 0 h⟩

/-- Witness for C3: the terminator is found even when the request arrives
one byte at a time (the straddling regression fixture). -/
theorem header_terminator_scan_spec_witness :
    isFound (headerRecvLoop 100 [] 0
      ((sbytes "GET / HTTP/1.0" ++ crlf ++ crlf).map (fun b => [b]))) = true :=
  (header_terminator_scan_spec 100 []
      ((sbytes "GET / HTTP/1.0" ++ crlf ++ crlf).map (fun b => [b]))).2.1
    ⟨18, by decide, by decide, by decide⟩

/-- Counterexample for C3 as stated: a fill that brings the buffer to
exactly `request_max_size` with the terminator present is answered with
`PayloadTooLarge` — the loop gives up at `len(buf) == request_max_size`
without scanning, even though the buffer never exceeded the limit. -/
theorem header_terminator_scan_counterexample :
    headerRecvLoop 4 [] 0 [crlfcrlf] = .tooLarge ∧
    occursFrom (fillPrefix [] [crlfcrlf] 1) crlfcrlf 0 ∧
    (fillPrefix [] [crlfcrlf] 1).length ≤ 4 := by
  refine ⟨by decide, ⟨0, by decide⟩, by decide⟩

/-- `dropWhile` is the identity when no element satisfies the predicate. -/
lemma dropWhile_eq_self (p : Nat → Bool) (l : Bytes)
    (h : ∀ b ∈ l, p b = false) : l.dropWhile p = l := by
  cases l with
  | nil => rfl
  | cons a as =>
    rw [List.dropWhile_cons, if_neg (by simp [h a (List.mem_cons_self a as)])]

/-- Plain hex-digit strings parse to their value under Python `int(s, 16)`. -/
lemma pythonIntHex_digits (s : Bytes) (hne : s ≠ [])
    (hhex : s.all isHexDigit = true) :
    pythonIntHex s = some (hexNat s) := by
  obtain ⟨a, as, rfl⟩ := List.exists_cons_of_ne_nil hne
  have hmem : ∀ b ∈ a :: as, isHexDigit b = true := by
    simpa [List.all_eq_true] using hhex
  have hspace : ∀ b ∈ a :: as, isPySpace b = false := by
    intro b hb
    have h1 := hmem b hb
    unfold isHexDigit at h1
    unfold isPySpace
    simp only [decide_eq_true_eq] at h1
    simp only [decide_eq_false_iff_not]
    omega
  have hstrip : pyStrip (a :: as) = a :: as := by
    unfold pyStrip
    rw [dropWhile_eq_self _ _ hspace,
      dropWhile_eq_self _ _ (fun b hb => hspace b (List.mem_reverse.mp hb)),
      List.reverse_reverse]
  have ha := hmem a (List.mem_cons_self a as)
  have ha45 : a ≠ 45 := by
    intro hc; subst hc
    exact absurd ha (by decide)
  have ha43 : a ≠ 43 := by
    intro hc; subst hc
    exact absurd ha (by decide)
  have hsign : pySign (a :: as) = (1, a :: as) := by
    simp only [pySign]
    rw [if_neg ha45, if_neg ha43]
  have hbody : pyHexBody (a :: as) = a :: as := by
    cases as with
    | nil => rfl
    | cons y rest =>
      have hy := hmem y (by simp)
      have hy1 : y ≠ 120 := by
        intro hc; subst hc
        exact absurd hy (by decide)
      have hy2 : y ≠ 88 := by
        intro hc; subst hc
        exact absurd hy (by decide)
      simp only [pyHexBody]
      rw [if_neg (by simp [hy1, hy2])]
  unfold pythonIntHex
  rw [hstrip, hsign]
  simp only [hbody]
  rw [if_pos ⟨by simp, hhex⟩]
  simp

/-- Dropping the leading CRLF plus `m` more bytes. -/
lemma drop_two_cons (m : Nat) (L : Bytes) :
    (13 :: 10 :: L).drop (2 + m) = L.drop m := by
  rw [← List.drop_drop]
  rfl

/-- Position of the chunk-size line's terminating CRLF: in a buffer
`\x5cr\x5cn<size-line>\x5cr\x5cn...` whose size line contains no CR, the
scan from offset 3 lands exactly on the second CRLF. -/
lemma chunk_bfind (s e rest : Bytes) (h13s : (13 : Nat) ∉ s)
    (h13e : (13 : Nat) ∉ e) :
    bfind (crlf ++ (s ++ 59 :: e) ++ crlf ++ rest) crlf 3 =
      some (2 + (s ++ 59 :: e).length) := by
  set mid := s ++ 59 :: e with hmid
  have hmlen : 1 ≤ mid.length := by
    simp only [hmid, List.length_append, List.length_cons]
    omega
  have h13m : (13 : Nat) ∉ mid := by
    rw [hmid]
    intro hm
    rcases List.mem_append.mp hm with h | h
    · exact h13s h
    · rcases List.mem_cons.mp h with h | h
      · exact absurd h (by decide)
      · exact h13e h
  have hassoc : crlf ++ mid ++ crlf ++ rest =
      13 :: 10 :: (mid ++ (crlf ++ rest)) := by
    simp [crlf, CR, LF, List.append_assoc]
  apply bfind_some_of _ _ _ _ (by decide) (by omega)
  · rw [hassoc, drop_two_cons, List.drop_left]
    rw [List.isPrefixOf_iff_prefix]
    exact List.prefix_append _ _
  · intro j hj3 hjlt hpre
    have hj2 : j = 2 + (j - 2) := by omega
    have hjm : j - 2 < mid.length := by omega
    rw [hassoc, hj2, drop_two_cons] at hpre
    rw [List.isPrefixOf_iff_prefix] at hpre
    obtain ⟨t, ht⟩ := hpre
    rw [List.drop_append_of_le_length (le_of_lt hjm)] at ht
    rcases hmd : mid.drop (j - 2) with _ | ⟨c, cs⟩
    · have hlen := congrArg List.length hmd
      simp only [List.length_drop, List.length_nil] at hlen
      omega
    · rw [hmd] at ht
      rw [show crlf ++ t = 13 :: 10 :: t from rfl] at ht
      injection ht with h1 h2
      have hcmem : c ∈ mid :=
        List.mem_of_mem_drop (hmd ▸ List.mem_cons_self c cs)
      rw [← h1] at hcmem
      exact h13m hcmem

/-- `chunkScan` succeeds right away when the CRLF is already buffered. -/
lemma chunkScan_found_of_bfind (buf : Bytes) (fills : List Bytes) (p : Nat)
    (h : bfind buf crlf 3 = some p) :
    chunkScan buf fills = .found p buf fills := by
  cases fills with
  | nil => rw [chunkScan, h]
  | cons f rest => rw [chunkScan, h]

/-- `takeWhile` splits at the first `;`. -/
lemma takeWhile_semicolon (s e : Bytes) (h59 : (59 : Nat) ∉ s) :
    (s ++ 59 :: e).takeWhile (fun b => b ≠ 59) = s := by
  induction s with
  | nil => simp [List.takeWhile_cons]
  | cons a as ih =>
    have ha : a ≠ 59 := fun hc => h59 (hc ▸ List.mem_cons_self a as)
    rw [List.cons_append, List.takeWhile_cons, if_pos (by simp [ha]),
      ih (fun hm => h59 (List.mem_cons_of_mem a hm))]

/-- Hex digits are ASCII. -/
lemma decodeAscii_hex (s : Bytes) (hhex : s.all isHexDigit = true) :
    decodeAscii s = some s := by
  unfold decodeAscii
  rw [if_pos]
  rw [List.all_eq_true] at hhex ⊢
  intro b hb
  have := hhex b hb
  unfold isHexDigit at this
  simp only [decide_eq_true_eq] at this ⊢
  omega

/-- C4 (amended): with `request_bytes_left == 0` in chunked mode, `read`
parses the next chunk header by scanning for the second CRLF from offset 3.
`InvalidUsage("Bad chunked encoding")` with keep-alive off is raised only
when a scan finds no CRLF while more than 64 buffered bytes are present —
a size line whose CRLF is already buffered is accepted whatever its length.
The hex size is parsed ignoring extensions after `;`; size 0 terminates the
body, clears the chunked flag and returns `None`. -/
theorem chunked_header_parse_spec :
    (∀ (ka ec ho : Bool) (total : Int) (buf : Bytes) (stg : Stage)
        (maxS : Nat) (fills : List Bytes) (buf2 : Bytes),
      chunkScan buf fills = .tooLong buf2 →
      read ⟨ka, ec, ho, true, 0, total, buf, stg⟩ maxS fills =
        .err ⟨false, false, ho, true, 0, total, buf2, stg⟩
          (.invalidUsage "Bad chunked encoding")) ∧
    (∀ (buf : Bytes) (fills : List Bytes),
      bfind buf crlf 3 = none → 64 < buf.length →
      chunkScan buf fills = .tooLong buf) ∧
    (∀ (ka ec ho : Bool) (total : Int) (stg : Stage) (maxS : Nat)
        (fills : List Bytes) (s e rest : Bytes),
      s ≠ [] → s.all isHexDigit = true → (13 : Nat) ∉ s → (13 : Nat) ∉ e →
      (59 : Nat) ∉ s →
      (hexNat s = 0 →
        read ⟨ka, ec, ho, true, 0, total,
            crlf ++ (s ++ 59 :: e) ++ crlf ++ rest, stg⟩ maxS fills =
          .ok ⟨ka, false, ho, false, 0,
              total + (((2 + (s ++ 59 :: e).length : Nat) : Int) + 2), rest, stg⟩
            fills none ec) ∧
      (hexNat s ≠ 0 →
        read ⟨ka, ec, ho, true, 0, total,
            crlf ++ (s ++ 59 :: e) ++ crlf ++ rest, stg⟩ maxS fills =
          readBody ⟨ka, false, ho, true, (hexNat s : Int),
              total + (((2 + (s ++ 59 :: e).length : Nat) : Int) + 2), rest, stg⟩
            maxS fills ec)) := by
  refine ⟨?_, ?_, ?_⟩
  · intro ka ec ho total buf stg maxS fills buf2 hscan
    unfold read
    rw [if_pos ⟨rfl, rfl⟩]
    rw [show (⟨ka, false, ho, true, 0, total, buf, stg⟩ : ReqState).buf = buf
      from rfl, hscan]
  · intro buf fills hbf h64
    cases fills with
    | nil =>
      rw [chunkScan, hbf, if_pos h64]
    | cons f rest =>
      rw [chunkScan, hbf, if_pos h64]
  · intro ka ec ho total stg maxS fills s e rest hne hhex h13s h13e h59s
    have hbf := chunk_bfind s e rest h13s h13e
    have hscan := chunkScan_found_of_bfind _ fills _ hbf
    have hslice :
        (((crlf ++ (s ++ 59 :: e) ++ crlf ++ rest).drop 2).take
          ((2 + (s ++ 59 :: e).length) - 2)).takeWhile (fun b => b ≠ 59) = s := by
      have hassoc : crlf ++ (s ++ 59 :: e) ++ crlf ++ rest =
          13 :: 10 :: ((s ++ 59 :: e) ++ (crlf ++ rest)) := by
        simp [crlf, CR, LF, List.append_assoc]
      rw [hassoc]
      rw [show (13 :: 10 :: ((s ++ 59 :: e) ++ (crlf ++ rest))).drop 2 =
        (s ++ 59 :: e) ++ (crlf ++ rest) from rfl]
      rw [show (2 + (s ++ 59 :: e).length) - 2 = (s ++ 59 :: e).length from by omega]
      rw [List.take_left]
      exact takeWhile_semicolon s e h59s
    have hparse :
        (decodeAscii
          ((((crlf ++ (s ++ 59 :: e) ++ crlf ++ rest).drop 2).take
            ((2 + (s ++ 59 :: e).length) - 2)).takeWhile
              (fun b => b ≠ 59))).bind pythonIntHex =
          some ((hexNat s : Nat) : Int) := by
      rw [hslice, decodeAscii_hex s hhex]
      show pythonIntHex s = some ((hexNat s : Nat) : Int)
      exact pythonIntHex_digits s hne hhex
    have hdropall :
        (crlf ++ (s ++ 59 :: e) ++ crlf ++ rest).drop
          ((2 + (s ++ 59 :: e).length) + 2) = rest := by
      have hassoc : crlf ++ (s ++ 59 :: e) ++ crlf ++ rest =
          13 :: 10 :: ((s ++ 59 :: e) ++ (crlf ++ rest)) := by
        simp [crlf, CR, LF, List.append_assoc]
      rw [hassoc,
        show (2 + (s ++ 59 :: e).length) + 2 = 2 + ((s ++ 59 :: e).length + 2)
          from by omega,
        drop_two_cons, ← List.drop_drop, List.drop_left]
      rfl
    constructor
    · intro hzero
      unfold read
      rw [if_pos ⟨rfl, rfl⟩]
      rw [show (⟨ka, false, ho, true, 0, total,
        crlf ++ (s ++ 59 :: e) ++ crlf ++ rest, stg⟩ : ReqState).buf =
        crlf ++ (s ++ 59 :: e) ++ crlf ++ rest from rfl, hscan]
      simp only [hparse, hdropall, hzero]
      rw [if_pos (by simp)]
      simp
    · intro hnz
      unfold read
      rw [if_pos ⟨rfl, rfl⟩]
      rw [show (⟨ka, false, ho, true, 0, total,
        crlf ++ (s ++ 59 :: e) ++ crlf ++ rest, stg⟩ : ReqState).buf =
        crlf ++ (s ++ 59 :: e) ++ crlf ++ rest from rfl, hscan]
      simp only [hparse, hdropall]
      rw [if_neg (by simpa using hnz)]

/-- Witness for C4: the terminating `0` chunk (`\x5cr\x5cn0;\x5cr\x5cn`)
ends the body, clears the chunked flag and returns `None`. -/
theorem chunked_header_parse_spec_witness :
    hexNat [48] = 0 ∧
    read ⟨true, false, false, true, 0, 0,
        crlf ++ ([48] ++ 59 :: []) ++ crlf ++ [], Stage.handler⟩ 100 [] =
      .ok ⟨true, false, false, false, 0,
          (0 : Int) + (((2 + ([48] ++ 59 :: ([] : Bytes)).length : Nat) : Int) + 2),
          [], Stage.handler⟩ [] none false :=
  ⟨by decide,
    (chunked_header_parse_spec.2.2 true false false 0 Stage.handler 100 []
      [48] [] [] (by decide) (by decide) (by decide) (by decide) (by decide)).1
      (by decide)⟩

/-- Fixture for the C4 counterexample: a chunk-size line far longer than 64
bytes (`1;` followed by 70 bytes of extension), delivered in full before
`read` is called, followed by the one-byte chunk body. -/
def c4buf : Bytes := crlf ++ sbytes "1;" ++ List.replicate 70 120 ++ crlf ++ [104]

set_option maxRecDepth 4000 in
/-- Counterexample for C4 as stated: the buffered data has no CRLF within
its first 64 bytes (from offset 3), yet `read` raises nothing — the 64-byte
check only fires when the scan fails, so a size line whose CRLF is already
buffered is accepted at any length. -/
theorem chunked_header_parse_counterexample :
    (¬ occursFrom (c4buf.take 64) crlf 3) ∧ 64 < c4buf.length ∧
    read ⟨true, false, false, true, 0, 0, c4buf, Stage.handler⟩ 1000 [] =
      .ok ⟨true, false, false, true, 0, 77, [], Stage.handler⟩ []
        (some [104]) false :=
  ⟨by decide, by decide, by decide⟩

/-- The body-flag invariant of the header loop: the flag is (or becomes)
true exactly when the parsed headers contain a `content-length` or
`transfer-encoding` name. -/
lemma processHeaders_body_invariant (lines : List Bytes) :
    ∀ (acc r : HeadersL × Bool × Bool),
      (acc.2.1 = true ↔ ∃ p ∈ acc.1, p.1 = sbytes "content-length" ∨
        p.1 = sbytes "transfer-encoding") →
      List.foldlM (fun acc l => do
        let (n, v) ← parseHeaderLine l
        let (hs, body, ka) := acc
        if n = sbytes "content-length" ∨ n = sbytes "transfer-encoding" then
          return (hs ++ [(n, v)], true, ka)
        else if n = sbytes "connection" then
          return (hs ++ [(n, v)], body, asciiLower v = sbytes "keep-alive")
        else
          return (hs ++ [(n, v)], body, ka)) acc lines = some r →
      (r.2.1 = true ↔ ∃ p ∈ r.1, p.1 = sbytes "content-length" ∨
        p.1 = sbytes "transfer-encoding") := by
  induction lines with
  | nil =>
    intro acc r hP h
    simp only [List.foldlM_nil, Option.pure_def, Option.some.injEq] at h
    subst h
    exact hP
  | cons l rest ih =>
    intro acc r hP h
    rw [List.foldlM_cons] at h
    rcases hpl : parseHeaderLine l with _ | ⟨n, v⟩ <;> rw [hpl] at h
    · exact absurd h (by simp)
    · obtain ⟨hs, body, ka⟩ := acc
      simp only [Option.bind_eq_bind, Option.some_bind] at h
      by_cases h1 : n = sbytes "content-length" ∨ n = sbytes "transfer-encoding"
      · rw [if_pos h1] at h
        refine ih _ r ?_ h
        simp only [true_iff]
        exact ⟨(n, v), by simp, h1⟩
      · rw [if_neg h1] at h
        by_cases h2 : n = sbytes "connection"
        · rw [if_pos h2] at h
          refine ih _ r ?_ h
          simp only at hP ⊢
          rw [hP]
          constructor
          · rintro ⟨p, hp, hpn⟩
            exact ⟨p, by simp [hp], hpn⟩
          · rintro ⟨p, hp, hpn⟩
            rcases List.mem_append.mp hp with hp | hp
            · exact ⟨p, hp, hpn⟩
            · simp only [List.mem_singleton] at hp
              subst hp
              exact absurd hpn h1
        · rw [if_neg h2] at h
          refine ih _ r ?_ h
          simp only at hP ⊢
          rw [hP]
          constructor
          · rintro ⟨p, hp, hpn⟩
            exact ⟨p, by simp [hp], hpn⟩
          · rintro ⟨p, hp, hpn⟩
            rcases List.mem_append.mp hp with hp | hp
            · exact ⟨p, hp, hpn⟩
            · simp only [List.mem_singleton] at hp
              subst hp
              exact absurd hpn h1

/-- C8 (amended): the `Expect` validation runs only when a body is
indicated — the body flag is set exactly by a `content-length` or
`transfer-encoding` header; without it `bodyPrep` ignores any `expect`
header entirely.  With a body indicated, an `expect` header equal
(case-insensitively) to `100-continue` sets `expecting_continue`, and any
other value raises `HeaderExpectationFailed`. -/
theorem expect_header_check_spec :
    (∀ (lines : List Bytes) (ka0 : Bool) (hs : HeadersL) (body ka : Bool),
      processHeaders lines ka0 = some (hs, body, ka) →
      (body = true ↔ ∃ p ∈ hs, p.1 = sbytes "content-length" ∨
        p.1 = sbytes "transfer-encoding")) ∧
    (∀ (hs : HeadersL) (ec0 : Bool),
      bodyPrep hs false ec0 = Except.ok (ec0, false, 0, false)) ∧
    (∀ (hs : HeadersL) (ec0 : Bool) (v : Bytes),
      hfind hs (sbytes "expect") = some v →
      (asciiLower v ≠ sbytes "100-continue" →
        bodyPrep hs true ec0 = Except.error (.headerExpectationFailed v)) ∧
      (asciiLower v = sbytes "100-continue" →
        ∀ r, bodyPrep hs true ec0 = Except.ok r → r.1 = true)) := by
  refine ⟨?_, ?_, ?_⟩
  · intro lines ka0 hs body ka h
    exact processHeaders_body_invariant lines ([], false, ka0) (hs, body, ka)
      (by simp) h
  · intro hs ec0
    rfl
  · intro hs ec0 v hv
    constructor
    · intro hne
      unfold bodyPrep
      rw [if_pos rfl]
      simp only [hv]
      rw [if_neg hne]
      rfl
    · intro heq r hr
      unfold bodyPrep at hr
      rw [if_pos rfl] at hr
      simp only [hv] at hr
      rw [if_pos heq] at hr
      split at hr
      · injection hr with hr
        subst hr
        rfl
      · split at hr
        · cases hr
        · split at hr
          · cases hr
          · injection hr with hr
            subst hr
            rfl

/-- Witness for C8: with a body indicated, `Expect: wat` is rejected with
`HeaderExpectationFailed`. -/
theorem expect_header_check_spec_witness :
    hfind [(sbytes "expect", sbytes "wat")] (sbytes "expect") =
      some (sbytes "wat") ∧
    bodyPrep [(sbytes "expect", sbytes "wat")] true false =
      Except.error (.headerExpectationFailed (sbytes "wat")) :=
  ⟨by decide,
    (expect_header_check_spec.2.2 [(sbytes "expect", sbytes "wat")] false
      (sbytes "wat") (by decide)).1 (by decide)⟩

/-- Fixture for the C8 counterexample: a bodyless request carrying
`Expect: wat`. -/
def c8req : Bytes :=
  sbytes "GET / HTTP/1.1" ++ crlf ++ sbytes "expect: wat" ++ crlf ++ crlf

/-- Counterexample for C8 as stated: the unknown `Expect: wat` header on a
request with no `content-length`/`transfer-encoding` is accepted without
`HeaderExpectationFailed` (and `expecting_continue` stays false) — the
check sits inside the `if body:` block. -/
theorem expect_header_check_counterexample :
    http1_request_header ⟨true, false, false, false, 0, 0, c8req, Stage.request⟩
        100 [] =
      .ok ⟨true, false, false, false, 0, 0, [], Stage.handler⟩
        ⟨sbytes "GET", [47], sbytes "1.1", [(sbytes "expect", sbytes "wat")]⟩
        [] ∧
    asciiLower (sbytes "wat") ≠ sbytes "100-continue" :=
  ⟨by decide, by decide⟩

/-- The header-parsing continuation never touches `_total_request_size`. -/
lemma reqHeaderFinish_total (st : ReqState) (pos : Nat) (buf : Bytes)
    (fills : List Bytes) (method url protocol : Bytes)
    (raw_headers : List Bytes) (ka : Bool) (st' : ReqState)
    (req : ParsedRequest) (fl : List Bytes)
    (h : reqHeaderFinish st pos buf fills method url protocol raw_headers ka =
      .ok st' req fl) :
    st'.total = st.total := by
  unfold reqHeaderFinish at h
  repeat' split at h
  all_goals first
    | (exact ReqHeaderRes.noConfusion h)
    | (injection h with h1 h2 h3; subst h1; rfl)

/-- Header parsing never touches `_total_request_size`. -/
lemma http1_request_header_total (st : ReqState) (maxS : Nat)
    (fills : List Bytes) (st' : ReqState) (req : ParsedRequest)
    (fl : List Bytes) (h : http1_request_header st maxS fills = .ok st' req fl) :
    st'.total = st.total := by
  unfold http1_request_header at h
  repeat' split at h
  all_goals first
    | (exact ReqHeaderRes.noConfusion h)
    | (exact reqHeaderFinish_total _ _ _ _ _ _ _ _ _ _ _ _ h)

/-- Accounting of one successful `readBody` call. -/
lemma readBody_ok (st : ReqState) (maxS : Nat) (fills : List Bytes)
    (s100 : Bool) (st' : ReqState) (fl : List Bytes) (d : Option Bytes)
    (s' : Bool) (h : readBody st maxS fills s100 = .ok st' fl d s') :
    st'.total = st.total + (d.getD []).length ∧
    st'.request_bytes_left = st.request_bytes_left - (d.getD []).length ∧
    st'.request_chunked = st.request_chunked ∧
    st'.keep_alive = st.keep_alive ∧
    (st.total ≤ maxS → st'.total ≤ maxS) := by
  unfold readBody at h
  by_cases h0 : st.request_bytes_left = (0 : Int)
  · rw [if_neg (by simp [h0])] at h
    injection h with h1 h2 h3 h4
    subst h1; subst h3
    simp
  · rw [if_pos h0] at h
    split at h
    all_goals try (exact ReadRes.noConfusion h)
    all_goals (
      dsimp only at h
      split at h
      · exact ReadRes.noConfusion h
      · rename_i hle
        injection h with h1 h2 h3 h4
        subst h1; subst h3
        push_neg at hle
        exact ⟨by simp, by simp, rfl, rfl, fun _ => by simpa using hle⟩)

/-- A `readBody` failure is `PayloadTooLarge` with keep-alive off, after the
counter has passed the limit. -/
lemma readBody_err (st : ReqState) (maxS : Nat) (fills : List Bytes)
    (s100 : Bool) (st' : ReqState) (e : HErr)
    (h : readBody st maxS fills s100 = .err st' e) :
    e = .payloadTooLarge "Payload Too Large" ∧ st'.keep_alive = false ∧
    (maxS : Int) < st'.total := by
  unfold readBody at h
  by_cases h0 : st.request_bytes_left = (0 : Int)
  · rw [if_neg (by simp [h0])] at h
    exact absurd h (by simp)
  · rw [if_pos h0] at h
    split at h
    all_goals try (exact ReadRes.noConfusion h)
    all_goals (
      dsimp only at h
      split at h
      · rename_i hgt
        injection h with h1 h2
        subst h1; subst h2
        exact ⟨rfl, rfl, by simpa using hgt⟩
      · exact ReadRes.noConfusion h)

/-- In content-length mode `read` is `readBody` after the 100-continue
bookkeeping. -/
lemma read_not_chunked (st : ReqState) (maxS : Nat) (fills : List Bytes)
    (h : st.request_chunked = false) :
    read st maxS fills =
      readBody { st with expecting_continue := false } maxS fills
        st.expecting_continue := by
  unfold read
  rw [if_neg (by simp [h])]

/-- Draining a content-length body: the counter advances by exactly the
consumed part of `request_bytes_left`. -/
lemma drainF_total (maxS : Nat) :
    ∀ (fuel : Nat) (st : ReqState) (fills : List Bytes) (st' : ReqState),
      st.request_chunked = false →
      drainF maxS fuel st fills = some st' →
      st'.request_chunked = false ∧
      st'.total - st.total =
        st.request_bytes_left - st'.request_bytes_left := by
  intro fuel
  induction fuel with
  | zero => intro st fills st' _ h; exact absurd h (by simp [drainF])
  | succ n ih =>
    intro st fills st' hch h
    rw [drainF] at h
    rw [read_not_chunked st maxS fills hch] at h
    split at h
    · rename_i st2 fl2 d s hread
      obtain ⟨ht, hl, hc, _, _⟩ :=
        readBody_ok { st with expecting_continue := false } maxS fills
          st.expecting_continue st2 fl2 (some d) s hread
      have ht2 : st2.total = st.total + (d.length : Int) := ht
      have hl2 : st2.request_bytes_left =
          st.request_bytes_left - (d.length : Int) := hl
      have hc2 : st2.request_chunked = false := hc.trans hch
      split at h
      · rename_i hdnil
        injection h with h1
        subst hdnil
        simp only [List.length_nil, Nat.cast_zero, add_zero, sub_zero] at ht2 hl2
        rw [← h1]
        exact ⟨hc2, by omega⟩
      · obtain ⟨hc3, htot⟩ := ih st2 fl2 st' hc2 h
        exact ⟨hc3, by omega⟩
    · rename_i st2 fl2 s hread
      obtain ⟨ht, hl, hc, _, _⟩ :=
        readBody_ok { st with expecting_continue := false } maxS fills
          st.expecting_continue st2 fl2 none s hread
      have ht2 : st2.total = st.total := by simpa using ht
      have hl2 : st2.request_bytes_left = st.request_bytes_left := by simpa using hl
      have hc2 : st2.request_chunked = false := hc.trans hch
      injection h with h1
      rw [← h1]
      exact ⟨hc2, by omega⟩
    · exact Option.noConfusion h
    · exact Option.noConfusion h

/-- C2 (amended): `_total_request_size` counts only body bytes delivered by
`read` — header parsing leaves it untouched — so on a fully consumed
content-length body it grows by exactly the body length (not the wire
length of the request).  Each successful read keeps the counter within
`request_max_size`; a read that would push it past the limit raises
`PayloadTooLarge` and clears keep-alive (the counter itself is left past
the limit at the raise). -/
theorem total_request_size_spec :
    (∀ (st : ReqState) (maxS : Nat) (fills : List Bytes) (st' : ReqState)
        (req : ParsedRequest) (fl : List Bytes),
      http1_request_header st maxS fills = .ok st' req fl →
      st'.total = st.total) ∧
    (∀ (st : ReqState) (maxS : Nat) (fills fl : List Bytes) (st' : ReqState)
        (d : Option Bytes) (s' : Bool),
      st.request_chunked = false →
      read st maxS fills = .ok st' fl d s' →
      st'.total = st.total + (d.getD []).length ∧
      st'.request_bytes_left = st.request_bytes_left - (d.getD []).length ∧
      (st.total ≤ maxS → st'.total ≤ maxS)) ∧
    (∀ (st : ReqState) (maxS : Nat) (fills : List Bytes) (st' : ReqState)
        (e : HErr),
      st.request_chunked = false →
      read st maxS fills = .err st' e →
      e = .payloadTooLarge "Payload Too Large" ∧ st'.keep_alive = false ∧
      (maxS : Int) < st'.total) ∧
    (∀ (maxS fuel : Nat) (st : ReqState) (fills : List Bytes) (st' : ReqState),
      st.request_chunked = false →
      drainF maxS fuel st fills = some st' →
      st'.total - st.total = st.request_bytes_left - st'.request_bytes_left ∧
      (st'.request_bytes_left = 0 →
        st'.total = st.total + st.request_bytes_left)) := by
  refine ⟨?_, ?_, ?_, ?_⟩
  · exact http1_request_header_total
  · intro st maxS fills fl st' d s' hch hread
    rw [read_not_chunked st maxS fills hch] at hread
    obtain ⟨ht, hl, _, _, hmax⟩ :=
      readBody_ok { st with expecting_continue := false } maxS fills
        st.expecting_continue st' fl d s' hread
    exact ⟨by simpa using ht, by simpa using hl, fun hm => hmax (by simpa using hm)⟩
  · intro st maxS fills st' e hch hread
    rw [read_not_chunked st maxS fills hch] at hread
    exact readBody_err { st with expecting_continue := false } maxS fills
      st.expecting_continue st' e hread
  · intro maxS fuel st fills st' hch h
    obtain ⟨_, htot⟩ := drainF_total maxS fuel st fills st' hch h
    exact ⟨htot, fun hz => by omega⟩

/-- Witness for C2: reading the 5-byte body `"hello"` advances the counter
from 0 to 5 and leaves zero bytes outstanding. -/
theorem total_request_size_spec_witness :
    (⟨true, false, false, false, 5, 0, sbytes "hello", Stage.handler⟩ :
        ReqState).request_chunked = false ∧
    (⟨true, false, false, false, 0, 5, [], Stage.handler⟩ : ReqState).total =
      (⟨true, false, false, false, 5, 0, sbytes "hello", Stage.handler⟩ :
        ReqState).total + ((some (sbytes "hello")).getD []).length :=
  ⟨rfl,
    (total_request_size_spec.2.1
      ⟨true, false, false, false, 5, 0, sbytes "hello", Stage.handler⟩ 100 [] []
      ⟨true, false, false, false, 0, 5, [], Stage.handler⟩
      (some (sbytes "hello")) false rfl (by decide)).1⟩

/-- Fixture for the C2 counterexample: a 43-byte POST request with a 38-byte
header block and a 5-byte body. -/
def c2req : Bytes :=
  sbytes "POST / HTTP/1.1" ++ crlf ++ sbytes "content-length: 5" ++ crlf
    ++ crlf ++ sbytes "hello"

/-- Counterexample for C2 as stated: after fully consuming this valid
request (headers parsed, body read, zero bytes left), the counter holds 5 —
the body length — not the 43 bytes received on the wire, because header
bytes are never added to `_total_request_size`. -/
theorem total_request_size_counterexample :
    c2req.length = 43 ∧
    http1_request_header ⟨true, false, false, false, 0, 0, c2req, Stage.request⟩
        100 [] =
      .ok ⟨true, false, false, false, 5, 0, sbytes "hello", Stage.handler⟩
        ⟨sbytes "POST", [47], sbytes "1.1",
          [(sbytes "content-length", sbytes "5")]⟩ [] ∧
    read ⟨true, false, false, false, 5, 0, sbytes "hello", Stage.handler⟩
        100 [] =
      .ok ⟨true, false, false, false, 0, 5, [], Stage.handler⟩ []
        (some (sbytes "hello")) false ∧
    (5 : Int) ≠ 43 :=
  ⟨by decide, by decide, by decide, by decide⟩

end Sanic
